import Mathlib

/-!
Verification of the adapt-authoring-adaptframework content conversion code.

The definitions below are shallow embeddings of the JavaScript source:
* the Hierarchy Sorter of the Import Orchestrator
  (AdaptFrameworkImport.getSortedData together with the sort-order
  assignment performed by importCourseData);
* the per-item migration chain (AdaptFrameworkImport.transformData and
  the migration modules under lib/migrations);
* the schema-driven asset-reference rewrite
  (AdaptFrameworkImport.extractAssetsRecursive);
* the schema-default merge applied after insertion
  (AdaptFrameworkImport.applyDefaults, whose data operation is a lodash
  deep merge of the inserted document over the computed defaults);
* the import orchestration (AdaptFrameworkImport.import and cleanUp);
* the build-attempt bookkeeping of the Build Orchestrator
  (AdaptFrameworkBuild.build, removeOldBuilds, recordBuildAttempt).

JavaScript while-loops are embedded with an explicit fuel argument so that
every definition is executable; theorems quantify over all sufficient fuel
amounts, which captures termination of the original loops.
-/

namespace AdaptFramework

/-- Structured errors thrown by the framework module (App.instance.errors),
plus a distinguished value for exhaustion of the loop-fuel of the embedding. -/
inductive AdaptError where
  | INVALID_COURSE
  | IMPORT_INVALID
  | FW_INCOMPAT
  | MISSING_PLUGINS
  | IMPORT_PLUGINS_FAILED
  | IMPORT_CONTENT_FAILED
  | IMPORT_CONTENT_SORT_FAILED
  | VALIDATION_FAILED
  | OUT_OF_FUEL
  deriving Repr, DecidableEq

/-! ## Hierarchy Sorter (AdaptFrameworkImport.getSortedData)

A content object as read from the package JSON.  getSortedData only reads
the `_id` and `_parentId` fields; `_sortOrder` carries the explicit sort
order a package file may declare for an item (it is never read by the
sorter, which is the point of one of the claims below). -/
structure CO where
  _id : String
  _parentId : String
  _sortOrder : Option Int := none
  deriving Repr, DecidableEq

/-- Result of getSortedData: the 2D array of levels of ids, and the
parent-to-ordered-children map (a JS object used as a dictionary,
modelled as a total function defaulting to the empty list). -/
structure SortResult where
  sorted : List (List String)
  hierarchy : String → List String

/-- The body of the two nested forEach loops of getSortedData for a single
content object c: for each id of the previous level equal to c._parentId,
push c._id onto the new level and onto hierarchy[c._parentId]. -/
def stepItem (prev : List String) (st : List String × (String → List String)) (c : CO) :
    List String × (String → List String) :=
  prev.foldl
    (fun st i =>
      if c._parentId = i then
        (st.1 ++ [c._id],
         fun p => if p = c._parentId then st.2 p ++ [c._id] else st.2 p)
      else st)
    st

/-- One pass of the while-loop of getSortedData: iterate over all content
objects, collecting the new level and extending the hierarchy map. -/
def processLevel (cos : List CO) (prev : List String) (hier : String → List String) :
    List String × (String → List String) :=
  cos.foldl (stepItem prev) ([], hier)

/-- The while-loop of getSortedData.  `acc` is the `sorted` array built so
far (its last element is `prev`), `count` is `sortedCount`.  Each
iteration either throws IMPORT_CONTENT_SORT_FAILED (empty pass) or grows
`count` by the size of the new level; the fuel argument makes the
embedding executable and is shown irrelevant for all sufficient amounts. -/
def sortLoop (cos : List CO) : Nat → List (List String) → List String →
    (String → List String) → Nat → Except AdaptError SortResult
  | 0, _, _, _, _ => .error .OUT_OF_FUEL
  | fuel + 1, acc, prev, hier, count =>
    if count < cos.length then
      let res := processLevel cos prev hier
      if res.1.isEmpty then
        .error .IMPORT_CONTENT_SORT_FAILED
      else
        sortLoop cos fuel (acc ++ [res.1]) res.1 res.2 (count + res.1.length)
    else
      .ok ⟨acc, hier⟩

/-- AdaptFrameworkImport.getSortedData: `courseId` is
contentJson.course._id, `cos` is Object.values(contentJson.contentObjects).
cos.length + 1 units of fuel always suffice because every executed pass
grows sortedCount by at least one. -/
def getSortedData (courseId : String) (cos : List CO) : Except AdaptError SortResult :=
  sortLoop cos (cos.length + 1) [[courseId]] [courseId] (fun _ => []) 0

/-- JavaScript Array.prototype.indexOf: the index of the first occurrence,
or -1 when absent. -/
def jsIndexOf (l : List String) (x : String) : Int :=
  match l.findIdx? (fun y => y = x) with
  | some i => (i : Int)
  | none => -1

/-- The _sortOrder importCourseData assigns to an inserted item:
hierarchy[co._parentId].indexOf(co._id) + 1. -/
def assignedSortOrder (r : SortResult) (co : CO) : Int :=
  jsIndexOf (r.hierarchy co._parentId) co._id + 1

/-! ### Valid single-rooted item sets

A content item set is valid when there is a depth assignment d placing the
root at depth 0 and every item one level below its parent, every parent is
the root or another item of the set, ids are pairwise distinct, and no item
reuses the root id.  This is the formal reading of the single-rooted tree
invariant of the data model. -/

structure ValidTree (root : String) (cos : List CO) (d : String → Nat) : Prop where
  d_root : d root = 0
  d_step : ∀ c ∈ cos, d c._id = d c._parentId + 1
  parent_mem : ∀ c ∈ cos, c._parentId = root ∨ ∃ p ∈ cos, p._id = c._parentId
  ids_nodup : (cos.map CO._id).Nodup
  root_not_item : ∀ c ∈ cos, c._id ≠ root

/-- The children of p among the item set, in input order. -/
def children (cos : List CO) (p : String) : List String :=
  (cos.filter (fun c => decide (c._parentId = p))).map CO._id

/-- The level the sorter builds in pass k: level 0 is the course root,
level k+1 holds the ids of the items at depth k+1, in input order. -/
def lvlAt (root : String) (cos : List CO) (d : String → Nat) : Nat → List String
  | 0 => [root]
  | k + 1 => (cos.filter (fun c => decide (d c._id = k + 1))).map CO._id

/-- The `sorted` array after k passes of the loop. -/
def levelsUpTo (root : String) (cos : List CO) (d : String → Nat) (k : Nat) :
    List (List String) :=
  (List.range (k + 1)).map (lvlAt root cos d)

/-- The hierarchy map after k passes: every node of depth below k has had
its children pushed, in input order. -/
def hierAt (root : String) (cos : List CO) (d : String → Nat) (k : Nat) :
    String → List String :=
  fun p => if d p < k then children cos p else []

/-- The value of sortedCount after k passes. -/
def cntAt (cos : List CO) (d : String → Nat) (k : Nat) : Nat :=
  (cos.filter (fun c => decide (d c._id ≤ k))).length

/-! ### Concrete inputs and observation helpers for the sorter claims -/

/-- The four-item example of the specification: root c1 with the chain
p1, b1, k1. -/
def cosChain : List CO :=
  [{ _id := "p1", _parentId := "c1" },
   { _id := "b1", _parentId := "p1" },
   { _id := "k1", _parentId := "b1" }]

/-- A depth assignment witnessing that cosChain is a valid tree under
root c1. -/
def dChain : String → Nat :=
  fun s => if s = "c1" then 0 else if s = "p1" then 1 else if s = "b1" then 2 else 3

/-- Two siblings of the root carrying explicit _sortOrder fields that
reverse their input order. -/
def cosSiblings : List CO :=
  [{ _id := "b", _parentId := "r", _sortOrder := some 2 },
   { _id := "a", _parentId := "r", _sortOrder := some 1 }]

/-- Depth assignment for cosSiblings under root r. -/
def dSiblings : String → Nat := fun s => if s = "r" then 0 else 1

/-- An item set holding an item that reuses the root id r, plus an orphan
whose parent zzz is neither in the set nor the root. -/
def cosRootClash : List CO :=
  [{ _id := "x", _parentId := "r" },
   { _id := "r", _parentId := "r" },
   { _id := "o", _parentId := "zzz" }]

/-- An ordinary orphan example: one child of the root c1 and one item
whose parent zzz is neither in the set nor the root. -/
def cosOrphan : List CO :=
  [{ _id := "p1", _parentId := "c1" },
   { _id := "o1", _parentId := "zzz" }]

/-- The _sortOrder value an item set declares for the item with a given id
(0 when absent), used to phrase the follow-the-explicit-sortOrder reading
of the sibling-order claim. -/
def sortOrderKey (cos : List CO) (x : String) : Int :=
  match cos.find? (fun c => c._id == x) with
  | some c => c._sortOrder.getD 0
  | none => 0

/-- A sibling list is ordered by the explicit _sortOrder fields when the
declared keys are nondecreasing along it. -/
def followsSortOrder (cos : List CO) (l : List String) : Prop :=
  List.Pairwise (fun x y => sortOrderKey cos x ≤ sortOrderKey cos y) l

/-- The ordered-children list getSortedData computes for parent p, when it
succeeds. -/
def sortedHierarchyAt (rootId : String) (cos : List CO) (p : String) :
    Option (List String) :=
  match getSortedData rootId cos with
  | .ok r => some (r.hierarchy p)
  | .error _ => none

/-- The _sortOrder importCourseData assigns to co, when sorting succeeds. -/
def sortedOrderOf (rootId : String) (cos : List CO) (co : CO) : Option Int :=
  match getSortedData rootId cos with
  | .ok r => some (assignedSortOrder r co)
  | .error _ => none

/-- The level array getSortedData computes, when it succeeds. -/
def sortedLevels (rootId : String) (cos : List CO) : Option (List (List String)) :=
  match getSortedData rootId cos with
  | .ok r => some r.sorted
  | .error _ => none

/-- Invariant of the sorter loop state used to analyse runs on item sets
that contain an orphan: the accumulated array starts at the root level,
ends at the current previous level, links every entry of a level to an
item whose parent sits in the level above, and has pairwise-disjoint,
duplicate-free levels whose sizes sortedCount sums. -/
structure SortInv (root : String) (cos : List CO) (acc : List (List String))
    (prev : List String) (count : Nat) : Prop where
  head_eq : acc.head? = some [root]
  last_eq : acc.getLast? = some prev
  chain : ∀ (j : Nat) (hj : j + 1 < acc.length), ∀ x ∈ acc.get ⟨j + 1, hj⟩,
    ∃ c ∈ cos, c._id = x ∧ c._parentId ∈ acc.get ⟨j, Nat.lt_of_succ_lt hj⟩
  disj : ∀ (j k : Nat) (hj : j < acc.length) (hk : k < acc.length) (x : String),
    x ∈ acc.get ⟨j, hj⟩ → x ∈ acc.get ⟨k, hk⟩ → j = k
  nodups : ∀ (j : Nat) (hj : j < acc.length), (acc.get ⟨j, hj⟩).Nodup
  count_eq : count = ((acc.drop 1).flatten).length

/-! ## Schema-default merge (AdaptFrameworkImport.applyDefaults)

applyDefaults computes the schema defaults and then stores
lodash merge(defaults, data), the inserted document deep-merged over the
defaults.  JSON values are modelled below; a source property resolving to
undefined is not representable in JSON documents, so the corresponding
lodash skip rule never fires. -/

/-- A JSON value. -/
inductive JVal where
  | null
  | boolean (b : Bool)
  | num (n : Int)
  | str (s : String)
  | arr (elems : List JVal)
  | obj (fields : List (String × JVal))
  deriving Repr

/-- Property lookup on a JSON object field list. -/
def lookupField (fs : List (String × JVal)) (k : String) : Option JVal :=
  match fs.find? (fun f => f.1 == k) with
  | some f => some f.2
  | none => none

mutual
/-- lodash merge(dst, src): plain objects and arrays are merged
recursively, any other source value overrides by assignment. -/
def mergeVal : JVal → JVal → JVal
  | .obj d, .obj s =>
    .obj (mergeIntoD d s ++ s.filter (fun kv => (lookupField d kv.1).isNone))
  | .arr d, .arr s => .arr (mergeElems d s)
  | _, s => s

/-- The destination-keyed part of an object merge: every destination
property keeps its position, merged with the source property of the same
name when one exists. -/
def mergeIntoD : List (String × JVal) → List (String × JVal) → List (String × JVal)
  | [], _ => []
  | (k0, v0) :: dt, s =>
    (match lookupField s k0 with
     | some sv => (k0, mergeVal v0 sv)
     | none => (k0, v0)) :: mergeIntoD dt s

/-- Array merge: index-wise recursive merge, the longer list supplying the
tail. -/
def mergeElems : List JVal → List JVal → List JVal
  | [], s => s
  | dv :: dt, [] => dv :: dt
  | dv :: dt, sv :: st => mergeVal dv sv :: mergeElems dt st
end

/-- The data operation of applyDefaults: lodash merge of the inserted
document over the computed schema defaults. -/
def applyDefaults (defaults data : JVal) : JVal := mergeVal defaults data

/-- One step of a JSON path: an object key or an array index. -/
inductive PathStep where
  | key (k : String)
  | idx (i : Nat)
  deriving Repr, DecidableEq

/-- Resolve a path inside a JSON value. -/
def pathGet : JVal → List PathStep → Option JVal
  | v, [] => some v
  | .obj fs, .key k :: rest =>
    match lookupField fs k with
    | some w => pathGet w rest
    | none => none
  | .arr l, .idx i :: rest =>
    match l[i]? with
    | some w => pathGet w rest
    | none => none
  | _, _ => none

/-- A primitive (non-mergeable) JSON value. -/
def isPrim : JVal → Bool
  | .obj _ => false
  | .arr _ => false
  | _ => true

/-- Defaults carrying a two-element array property. -/
def defaultsEx : JVal := .obj [("items", .arr [.str "x", .str "y"])]

/-- An inserted document carrying a one-element array at the same
property. -/
def dataEx : JVal := .obj [("items", .arr [.str "a"])]

/-! ## Asset-reference rewrite (AdaptFrameworkImport.extractAssetsRecursive)

The walk follows the item schema: a property with nested properties is a
group, one whose items have properties is an array of objects, one flagged
by the backbone-forms Asset marker is an asset reference field, anything
else is plain.  Exceptions thrown mid-walk are modelled by threading the
partially rewritten data together with an error flag, because the caller
(importContentObject) catches the exception, logs it, and continues with
whatever state the data mutation reached. -/

mutual
/-- A node of an item schema, as classified by extractAssetsRecursive. -/
inductive SchemaNode where
  | group (props : SchemaProps)
  | arrayOf (props : SchemaProps)
  | asset
  | plain
/-- The ordered properties of a schema object (JS object entries). -/
inductive SchemaProps where
  | nil
  | cons (key : String) (node : SchemaNode) (rest : SchemaProps)
end

/-- The keys a schema property list declares. -/
def propsKeys : SchemaProps → List String
  | .nil => []
  | .cons k _ rest => k :: propsKeys rest

mutual
/-- A schema node declares every nested object with pairwise distinct
keys, as JS object entries always do. -/
def wfNode : SchemaNode → Bool
  | .group p => wfProps p
  | .arrayOf p => wfProps p
  | .asset => true
  | .plain => true
/-- Well-formedness of a schema property list. -/
def wfProps : SchemaProps → Bool
  | .nil => true
  | .cons k node rest =>
    !(propsKeys rest).contains k && wfNode node && wfProps rest
end

/-- Errors of the walk: the JS TypeError thrown when a schema-declared
array property holds a non-array, and exhaustion of the embedding fuel. -/
inductive ExtractErr where
  | typeError
  | outOfFuel
  deriving Repr, DecidableEq

/-- The assetMap built by importCourseAssets: original package path to
new asset id. -/
def amLookup (am : List (String × String)) (s : String) : Option String :=
  match am.find? (fun kv => kv.1 == s) with
  | some kv => some kv.2
  | none => none

/-- JS assignment data[key] = v for a key the object already has:
replace the first occurrence in place. -/
def setFieldVal : List (String × JVal) → String → JVal → List (String × JVal)
  | [], _, _ => []
  | (k0, v0) :: rest, k, v =>
    if k0 = k then (k0, v) :: rest else (k0, v0) :: setFieldVal rest k v

/-- JS assignment data[key] = undefined: the property no longer appears in
the JSON document that gets inserted. -/
def delField (fs : List (String × JVal)) (k : String) : List (String × JVal) :=
  fs.filter (fun kv => !(kv.1 == k))

/-- Property lookup on a JSON value (undefined for non-objects). -/
def lookupJ : JVal → String → Option JVal
  | .obj fs, k => lookupField fs k
  | _, _ => none

mutual
/-- extractAssetsRecursive over the entries of one schema object: skip
absent properties, recurse into groups, recurse over the elements of a
declared array (throwing when the value is not an array), and replace an
asset reference by its assetMap image (deleting it when unmapped). -/
def extractProps : Nat → List (String × String) → SchemaProps → JVal →
    JVal × Option ExtractErr
  | 0, _, _, data => (data, some .outOfFuel)
  | fuel + 1, am, props, data =>
    match props with
    | .nil => (data, none)
    | .cons key node rest =>
      match data with
      | .obj fs =>
        (match lookupField fs key with
         | none => extractProps fuel am rest (.obj fs)
         | some cur =>
           match node with
           | .group p2 =>
             let r := extractProps fuel am p2 cur
             let fs2 := setFieldVal fs key r.1
             (match r.2 with
              | some e => (JVal.obj fs2, some e)
              | none => extractProps fuel am rest (.obj fs2))
           | .arrayOf p2 =>
             (match cur with
              | .arr elems =>
                let r := extractElems fuel am p2 elems
                let fs2 := setFieldVal fs key (.arr r.1)
                (match r.2 with
                 | some e => (JVal.obj fs2, some e)
                 | none => extractProps fuel am rest (.obj fs2))
              | _ => (JVal.obj fs, some .typeError))
           | .asset =>
             (match cur with
              | .str s =>
                (match amLookup am s with
                 | some id => extractProps fuel am rest (.obj (setFieldVal fs key (.str id)))
                 | none => extractProps fuel am rest (.obj (delField fs key)))
              | _ => extractProps fuel am rest (.obj (delField fs key)))
           | .plain => extractProps fuel am rest (.obj fs))
      | _ => extractProps fuel am rest data
/-- The forEach over the elements of a declared array property; an
exception aborts the iteration, keeping the mutations made so far. -/
def extractElems : Nat → List (String × String) → SchemaProps → List JVal →
    List JVal × Option ExtractErr
  | 0, _, _, elems => (elems, some .outOfFuel)
  | _ + 1, _, _, [] => ([], none)
  | fuel + 1, am, p2, e :: es =>
    let r := extractProps fuel am p2 e
    (match r.2 with
     | some err => (r.1 :: es, some err)
     | none =>
       let rs := extractElems fuel am p2 es
       (r.1 :: rs.1, rs.2))
end

mutual
/-- Every schema-flagged asset field reachable through the walk is either
absent or holds the image of some original reference under the asset map;
declared arrays hold arrays of clean elements. -/
def cleanProps : Nat → List (String × String) → SchemaProps → JVal → Bool
  | 0, _, _, _ => false
  | fuel + 1, am, props, data =>
    match props with
    | .nil => true
    | .cons key node rest =>
      (match data with
       | .obj fs =>
         (match lookupField fs key with
          | none => true
          | some cur =>
            match node with
            | .group p2 => cleanProps fuel am p2 cur
            | .arrayOf p2 =>
              (match cur with
               | .arr elems => cleanElems fuel am p2 elems
               | _ => false)
            | .asset =>
              (match cur with
               | .str s => am.any (fun kv => kv.2 == s)
               | _ => false)
            | .plain => true)
       | _ => true) && cleanProps fuel am rest data
/-- Cleanliness of the elements of a declared array. -/
def cleanElems : Nat → List (String × String) → SchemaProps → List JVal → Bool
  | 0, _, _, _ => false
  | _ + 1, _, _, [] => true
  | fuel + 1, am, p2, e :: es =>
    cleanProps fuel am p2 e && cleanElems fuel am p2 es
end

/-- The asset-extraction step of importContentObject: the surrounding
try/catch only logs a failure, so the (possibly partially rewritten) data
proceeds to insertion either way. -/
def importItemAssetData (fuel : Nat) (am : List (String × String))
    (props : SchemaProps) (data : JVal) : JVal :=
  (extractProps fuel am props data).1

/-- Asset map of the extraction examples. -/
def amEx : List (String × String) := [("images/logo.png", "A1"), ("images/pic.png", "A2")]

/-- A schema declaring an array-of-objects property followed by an asset
property. -/
def schemaStale : SchemaProps :=
  .cons "badArr" (.arrayOf (.cons "pic" .asset .nil)) (.cons "logo" .asset .nil)

/-- An item whose badArr property holds a string where the schema declares
an array, and whose logo property holds an asset reference the asset map
knows. -/
def dataStale : JVal := .obj [("badArr", .str "oops"), ("logo", .str "images/logo.png")]

/-- A well-formed item for the same kind of schema: an asset reference and
an array of objects with a nested asset reference. -/
def schemaClean : SchemaProps :=
  .cons "logo" .asset
    (.cons "gallery" (.arrayOf (.cons "pic" .asset .nil)) .nil)

/-- Data matching schemaClean. -/
def dataClean : JVal :=
  .obj [("logo", .str "images/logo.png"),
        ("gallery", .arr [.obj [("pic", .str "images/pic.png")],
                          .obj [("pic", .str "missing.png")]])]

/-- Cleanliness of one present schema-classified field value. -/
def cleanNodeVal (fuel : Nat) (am : List (String × String)) :
    SchemaNode → JVal → Bool
  | .group p2, cur => cleanProps fuel am p2 cur
  | .arrayOf p2, cur =>
    (match cur with
     | .arr elems => cleanElems fuel am p2 elems
     | _ => false)
  | .asset, cur =>
    (match cur with
     | .str s => am.any (fun kv => kv.2 == s)
     | _ => false)
  | .plain, _ => true

/-- The extraction image of dataClean: references replaced by their new
asset ids, the unmapped reference dropped. -/
def dataCleanOut : JVal :=
  .obj [("logo", .str "A1"),
        ("gallery", .arr [.obj [("pic", .str "A2")], .obj []])]

/-! ## Import orchestration (AdaptFrameworkImport.import and cleanUp)

The orchestration is modelled as explicit state passing over the store
collections the import touches (filesystem directories, plugin registry,
asset records, content documents).  External behaviours — whether a plugin
install succeeds, whether a content insert passes validation — are oracle
parameters.  Store-generated ids are modelled injectively from the package
ids.  Concurrent Promise.all batches whose members touch disjoint state
are folded sequentially. -/

/-- The user-controlled import settings. -/
structure ImportSettings where
  importContent : Bool := true
  importPlugins : Bool := true
  updatePlugins : Bool := false
  deriving Repr, DecidableEq

/-- A plugin the package bundles (from its bower.json). -/
structure UsedPlugin where
  name : String
  version : Nat
  deriving Repr, DecidableEq

/-- What the unpacked package contains, as discovered by prepare,
loadCourseData and importCourseAssets. -/
structure PackageData where
  unzipPath : String
  coursePathExists : Bool
  pkgOk : Bool
  versionCompatible : Bool
  usedPlugins : List UsedPlugin
  assetFiles : List String
  courseOldId : String
  contentObjects : List CO
  deriving Repr, DecidableEq

/-- Oracles for the external module behaviours. -/
structure ImportWorld where
  installOk : String → Bool
  insertOk : String → Bool

/-- A document of the content collection, tracking the package id it came
from and the course id stamped on it. -/
structure ContentDoc where
  newId : String
  oldId : String
  itemType : String
  courseId : Option String
  deriving Repr, DecidableEq

/-- The store state the import run mutates. -/
structure ImportStore where
  dirs : List String
  plugins : List (String × Nat)
  assets : List String
  content : List ContentDoc
  deriving Repr, DecidableEq

/-- The mutable fields of the AdaptFrameworkImport instance the claims
depend on. -/
structure ImportRunState where
  idMap : List (String × String)
  assetMap : List (String × String)
  newContentPlugins : List String
  deriving Repr, DecidableEq

/-- The store-generated id for a package id (injective stand-in for a new
ObjectId). -/
def newIdFor (oldId : String) : String := "db:" ++ oldId

/-- The asset id created for an imported asset file. -/
def assetIdFor (f : String) : String := "asset:" ++ f

/-- Version lookup in the plugin registry. -/
def lookupVer (l : List (String × Nat)) (n : String) : Option Nat :=
  (l.find? (fun kv => kv.1 == n)).map (fun kv => kv.2)

/-- Lookup in a string map such as idMap. -/
def lookupStr (l : List (String × String)) (n : String) : Option String :=
  (l.find? (fun kv => kv.1 == n)).map (fun kv => kv.2)

/-- AdaptFrameworkImport.prepare: course directory present, package.json
readable, package major version compatible. -/
def prepareStage (pkg : PackageData) : Option AdaptError :=
  if !pkg.coursePathExists then some .INVALID_COURSE
  else if !pkg.pkgOk then some .IMPORT_INVALID
  else if !pkg.versionCompatible then some .FW_INCOMPAT
  else none

/-- AdaptFrameworkImport.importCourseAssets: every discovered asset file
is imported (failures are swallowed by Promise.allSettled) and the
assetMap records the new asset id for the original path. -/
def importCourseAssetsStage (pkg : PackageData) (st : ImportStore)
    (run : ImportRunState) : ImportStore × ImportRunState :=
  ({ st with assets := (st.assets ++ pkg.assetFiles.map assetIdFor) },
   { run with assetMap :=
      (run.assetMap ++ pkg.assetFiles.map (fun f => (f, assetIdFor f))) })

/-- AdaptFrameworkImport.importCoursePlugins: decide which used plugins to
install (absent ones, plus older installed ones when updates are allowed),
throw MISSING_PLUGINS when installs are needed but disallowed, install
what it can and throw IMPORT_PLUGINS_FAILED when any install failed —
keeping the successfully installed plugins in the registry. -/
def importCoursePluginsStage (settings : ImportSettings) (w : ImportWorld)
    (pkg : PackageData) (st : ImportStore) (run : ImportRunState) :
    ImportStore × ImportRunState × Option AdaptError :=
  let pluginsToInstall := pkg.usedPlugins.filter (fun p =>
    match lookupVer st.plugins p.name with
    | none => true
    | some instVer => settings.updatePlugins && decide (instVer < p.version))
  if pluginsToInstall.isEmpty then (st, run, none)
  else if !settings.importPlugins then (st, run, some .MISSING_PLUGINS)
  else
    let successes := pluginsToInstall.filter (fun p => w.installOk p.name)
    let st2 := { st with plugins :=
      (st.plugins ++ successes.map (fun p => (p.name, p.version))) }
    let run2 := { run with newContentPlugins :=
      (run.newContentPlugins ++ successes.map UsedPlugin.name) }
    if pluginsToInstall.all (fun p => w.installOk p.name) then (st2, run2, none)
    else (st2, run2, some .IMPORT_PLUGINS_FAILED)

/-- One level of importCourseData: all inserts of the level are dispatched
together; failed ones collect errors, successful ones commit and extend
the id map. -/
def insertLevel (w : ImportWorld) (courseNewId : String) (ids : List String)
    (st : ImportStore) (run : ImportRunState) :
    ImportStore × ImportRunState × Bool :=
  ids.foldl
    (fun acc id =>
      if w.insertOk id then
        ({ acc.1 with content :=
            (acc.1.content ++
             [{ newId := newIdFor id, oldId := id, itemType := "contentobject",
                courseId := some courseNewId }]) },
         { acc.2.1 with idMap := (acc.2.1.idMap ++ [(id, newIdFor id)]) },
         acc.2.2)
      else (acc.1, acc.2.1, true))
    (st, run, false)

/-- The level loop of importCourseData: levels strictly in sequence, the
whole import failing once a level finishes with collected errors. -/
def insertLevels (w : ImportWorld) (courseNewId : String) :
    List (List String) → ImportStore → ImportRunState →
    ImportStore × ImportRunState × Option AdaptError
  | [], st, run => (st, run, none)
  | ids :: rest, st, run =>
    match insertLevel w courseNewId ids st run with
    | (st2, run2, true) => (st2, run2, some .IMPORT_CONTENT_FAILED)
    | (st2, run2, false) => insertLevels w courseNewId rest st2 run2

/-- AdaptFrameworkImport.importCourseData: insert the course root, then
the config item, then the remaining items level by level following
getSortedData. -/
def importCourseDataStage (w : ImportWorld) (pkg : PackageData)
    (st : ImportStore) (run : ImportRunState) :
    ImportStore × ImportRunState × Option AdaptError :=
  if !(w.insertOk pkg.courseOldId) then (st, run, some .VALIDATION_FAILED)
  else
    let courseNewId := newIdFor pkg.courseOldId
    let st1 := { st with content :=
      (st.content ++
       [{ newId := courseNewId, oldId := pkg.courseOldId, itemType := "course",
          courseId := some courseNewId }]) }
    let run1 := { run with idMap :=
      (run.idMap ++ [(pkg.courseOldId, courseNewId), ("course", courseNewId)]) }
    if !(w.insertOk "config") then (st1, run1, some .VALIDATION_FAILED)
    else
      let st2 := { st1 with content :=
        (st1.content ++
         [{ newId := newIdFor "config", oldId := "config", itemType := "config",
            courseId := some courseNewId }]) }
      let run2 := { run1 with idMap :=
        (run1.idMap ++ [("config", newIdFor "config")]) }
      match getSortedData pkg.courseOldId pkg.contentObjects with
      | .error e => (st2, run2, some e)
      | .ok r => insertLevels w courseNewId (r.sorted.drop 1) st2 run2

/-- AdaptFrameworkImport.cleanUp: always remove the unpacked directory;
on error additionally delete the content of the imported course, delete
the created asset records and uninstall the plugins installed by this run.
Those deletions are built after parsing the new course id out of idMap;
when the course was never inserted that parse throws, the surrounding
catch swallows the error, and the deletions are skipped. -/
def cleanUpStage (error : Bool) (pkg : PackageData) (st : ImportStore)
    (run : ImportRunState) : ImportStore :=
  let st1 := { st with dirs := st.dirs.filter (fun dname => !(dname == pkg.unzipPath)) }
  if error then
    match lookupStr run.idMap pkg.courseOldId with
    | none => st1
    | some courseNewId =>
      { st1 with
        content := st1.content.filter (fun doc => !(doc.courseId == some courseNewId)),
        plugins := st1.plugins.filter (fun p => !(run.newContentPlugins.contains p.1)),
        assets := st1.assets.filter (fun a =>
          !((run.assetMap.map Prod.snd).contains a)) }
  else st1

/-- AdaptFrameworkImport.import: the staged run with unconditional cleanup
and the original error rethrown. -/
def importRun (settings : ImportSettings) (w : ImportWorld) (pkg : PackageData)
    (st0 : ImportStore) : ImportStore × Option AdaptError :=
  let run0 : ImportRunState := ⟨[], [], []⟩
  match prepareStage pkg with
  | some e => (cleanUpStage true pkg st0 run0, some e)
  | none =>
    let ar := if settings.importContent
      then importCourseAssetsStage pkg st0 run0
      else (st0, run0)
    match (if settings.importPlugins
        then importCoursePluginsStage settings w pkg ar.1 ar.2
        else (ar.1, ar.2, none)) with
    | (st2, run2, some e) => (cleanUpStage true pkg st2 run2, some e)
    | (st2, run2, none) =>
      match (if settings.importContent
          then importCourseDataStage w pkg st2 run2
          else (st2, run2, none)) with
      | (st3, run3, some e) => (cleanUpStage true pkg st3 run3, some e)
      | (st3, run3, none) => (cleanUpStage false pkg st3 run3, none)

/-- Import settings of the plugin-installs-disallowed scenario. -/
def settingsNoPlugins : ImportSettings :=
  { importContent := true, importPlugins := false, updatePlugins := false }

/-- Default import settings. -/
def settingsFull : ImportSettings := {}

/-- A world where every install and every insert succeeds. -/
def worldAllOk : ImportWorld := ⟨fun _ => true, fun _ => true⟩

/-- A world where plugin installs fail and inserts succeed. -/
def worldInstallFail : ImportWorld := ⟨fun _ => false, fun _ => true⟩

/-- A package referencing a plugin absent from the registry, with no
assets and an otherwise empty course. -/
def pkgMissingPlugin : PackageData :=
  { unzipPath := "/tmp/import1", coursePathExists := true, pkgOk := true,
    versionCompatible := true,
    usedPlugins := [{ name := "adapt-quiz", version := 2 }],
    assetFiles := [], courseOldId := "course", contentObjects := [] }

/-- A package with one asset file and one plugin to install. -/
def pkgWithAsset : PackageData :=
  { unzipPath := "/tmp/import2", coursePathExists := true, pkgOk := true,
    versionCompatible := true,
    usedPlugins := [{ name := "adapt-quiz", version := 2 }],
    assetFiles := ["images/a.png"], courseOldId := "course", contentObjects := [] }

/-- An initial store holding only the unpacked directories. -/
def storeInit : ImportStore :=
  { dirs := ["/tmp/import1", "/tmp/import2"], plugins := [], assets := [],
    content := [] }

/-! ## Build-attempt bookkeeping (AdaptFrameworkBuild)

The build pipeline reads the content store and writes only the
adaptbuilds collection (in removeOldBuilds and recordBuildAttempt) and the
filesystem output location; the intermediate load, transform, compile and
package stages never touch the adaptbuilds collection, so they are
abstracted to the materialisation of the output location. -/

/-- An adaptbuilds record. -/
structure BuildRecord where
  action : String
  courseId : String
  location : String
  expiresAt : String
  createdBy : String
  deriving Repr, DecidableEq

/-- The adaptbuilds collection together with the existing output
locations. -/
structure BuildDb where
  records : List BuildRecord
  files : List String
  deriving Repr, DecidableEq

/-- AdaptFrameworkBuild.removeOldBuilds: find every record of this action
and creator, remove each one's output location and delete the records. -/
def removeOldBuilds (st : BuildDb) (action userId : String) : BuildDb :=
  let old := st.records.filter (fun b => b.action == action && b.createdBy == userId)
  { records := st.records.filter (fun b => !(b.action == action && b.createdBy == userId)),
    files := st.files.filter (fun f => !(old.any (fun b => b.location == f))) }

/-- AdaptFrameworkBuild.recordBuildAttempt: insert the validated record. -/
def recordBuildAttempt (st : BuildDb) (r : BuildRecord) : BuildDb :=
  { st with records := st.records ++ [r] }

/-- The parameters of one build invocation. -/
structure BuildJob where
  action : String
  courseId : String
  userId : String
  location : String
  expiresAt : String
  deriving Repr, DecidableEq

/-- AdaptFrameworkBuild.build: evict prior builds of this action and
creator first, produce the output at the job location, and record the
attempt last. -/
def build (st : BuildDb) (j : BuildJob) : BuildDb × BuildRecord :=
  let st1 := removeOldBuilds st j.action j.userId
  let st2 := { st1 with files := st1.files ++ [j.location] }
  let rec2 : BuildRecord :=
    { action := j.action, courseId := j.courseId, location := j.location,
      expiresAt := j.expiresAt, createdBy := j.userId }
  (recordBuildAttempt st2 rec2, rec2)

/-- Two successive preview jobs of the same creator. -/
def jobPreview1 : BuildJob :=
  { action := "preview", courseId := "c1", userId := "u1",
    location := "/builds/1001", expiresAt := "t1" }

/-- The second preview job. -/
def jobPreview2 : BuildJob :=
  { action := "preview", courseId := "c1", userId := "u1",
    location := "/builds/1002", expiresAt := "t2" }

/-- An empty build store. -/
def buildDb0 : BuildDb := { records := [], files := [] }

/-! ## Migration Chain (AdaptFrameworkImport.transformData and the
migration modules of lib/migrations)

The chain touches the fields modelled below; all other fields of an item
are carried through every transform unchanged, so the embedding projects
an item onto exactly the fields the chain reads or writes. -/

/-- A primitive JSON value as stored in the niche fields the vanilla
migration inspects. -/
inductive JsPrim where
  | str (s : String)
  | num (n : Int)
  | boolean (b : Bool)
  | null
  deriving Repr, DecidableEq

/-- JavaScript falsiness of such a value. -/
def jsFalsy : JsPrim → Bool
  | .str s => s = ""
  | .num n => n = 0
  | .boolean b => !b
  | .null => true

/-- The in-place delete performed by the statements of the shape
if not x then delete x: a falsy or absent value becomes absent. -/
def delFalsy (v : Option JsPrim) : Option JsPrim :=
  match v with
  | none => none
  | some p => if jsFalsy p then none else some p

/-- JavaScript truthiness of an optional string field. -/
def jsTruthyStr : Option String → Bool
  | none => false
  | some s => !(s == "")

/-- The _graphic object of a graphic component. -/
structure Graphic where
  src : Option String
  large : Option String
  small : Option String
  deriving Repr, DecidableEq

/-- The _backgroundImage group handled by removeFalsy of
migrations/vanilla.js. -/
structure BgImage where
  _large : Option JsPrim
  _medium : Option JsPrim
  _small : Option JsPrim
  deriving Repr, DecidableEq

/-- The _backgroundStyles group handled by removeFalsy. -/
structure BgStyles where
  _backgroundRepeat : Option JsPrim
  _backgroundSize : Option JsPrim
  _backgroundPosition : Option JsPrim
  deriving Repr, DecidableEq

/-- The _minimumHeights group handled by removeFalsy. -/
structure MinHeights where
  _large : Option JsPrim
  _medium : Option JsPrim
  _small : Option JsPrim
  deriving Repr, DecidableEq

/-- The three groups removeFalsy destructures from its argument. -/
structure VanillaGroups where
  _backgroundImage : Option BgImage
  _backgroundStyles : Option BgStyles
  _minimumHeights : Option MinHeights
  deriving Repr, DecidableEq

/-- The _vanilla object: its own three groups plus the nested
_pageHeader object. -/
structure Vanilla where
  _backgroundImage : Option BgImage
  _backgroundStyles : Option BgStyles
  _minimumHeights : Option MinHeights
  _pageHeader : Option VanillaGroups
  deriving Repr, DecidableEq

/-- A content item, restricted to the fields the migration chain reads or
writes. -/
structure Item where
  _type : String
  _parentId : Option String
  _component : Option String
  _graphic : Option Graphic
  _playerOptions : Option JsPrim
  _vanilla : Option Vanilla
  deriving Repr, DecidableEq

/-- removeFalsy of migrations/vanilla.js on the _backgroundImage group. -/
def removeFalsyImage (g : BgImage) : BgImage :=
  { _large := delFalsy g._large, _medium := delFalsy g._medium,
    _small := delFalsy g._small }

/-- removeFalsy on the _backgroundStyles group. -/
def removeFalsyStyles (g : BgStyles) : BgStyles :=
  { _backgroundRepeat := delFalsy g._backgroundRepeat,
    _backgroundSize := delFalsy g._backgroundSize,
    _backgroundPosition := delFalsy g._backgroundPosition }

/-- removeFalsy on the _minimumHeights group. -/
def removeFalsyHeights (g : MinHeights) : MinHeights :=
  { _large := delFalsy g._large, _medium := delFalsy g._medium,
    _small := delFalsy g._small }

/-- removeFalsy applied to an object holding the three groups; absent
groups are skipped by the guards. -/
def removeFalsyGroups (v : VanillaGroups) : VanillaGroups :=
  { _backgroundImage := v._backgroundImage.map removeFalsyImage,
    _backgroundStyles := v._backgroundStyles.map removeFalsyStyles,
    _minimumHeights := v._minimumHeights.map removeFalsyHeights }

/-- VanillaTransform of migrations/vanilla.js: clean the _vanilla groups,
then the _vanilla._pageHeader groups when present. -/
def VanillaTransform (d : Item) : Item :=
  match d._vanilla with
  | none => d
  | some v =>
    let v2 : Vanilla :=
      { _backgroundImage := v._backgroundImage.map removeFalsyImage,
        _backgroundStyles := v._backgroundStyles.map removeFalsyStyles,
        _minimumHeights := v._minimumHeights.map removeFalsyHeights,
        _pageHeader := v._pageHeader.map removeFalsyGroups }
    { d with _vanilla := some v2 }

/-- ComponentTransform of migrations/component.js.  Its second parameter
is the importer; transformData invokes every migration with the data
argument only, so the importer is undefined (none) there and reading its
componentNameMap throws for component items. -/
def ComponentTransform (d : Item) (importer : Option (String → Option String)) :
    Except Unit Item :=
  if d._type = "component" then
    match importer with
    | none => .error ()
    | some nameMap =>
      let d1 := { d with _component := d._component.bind nameMap }
      .ok (if d1._playerOptions = some (JsPrim.str "") then
            { d1 with _playerOptions := none }
          else d1)
  else .ok d

/-- The parent-id rewrite opening transformData: a truthy _parentId is
replaced by its image under this.idMap (undefined when unmapped). -/
def parentFix (idMap : String → Option String) (d : Item) : Item :=
  if jsTruthyStr d._parentId then
    { d with _parentId := idMap (d._parentId.getD "") }
  else d

/-- The component-name rewrite of transformData for component items. -/
def componentFix (componentNameMap : String → Option String) (d : Item) : Item :=
  if d._type = "component" then
    { d with _component := d._component.bind componentNameMap }
  else d

/-- The graphic src fix of transformData: for a graphic component, copy a
truthy _graphic.src into large and small; reading src of an absent
_graphic throws. -/
def graphicFix (d : Item) : Except Unit Item :=
  if d._component = some "graphic" then
    match d._graphic with
    | none => .error ()
    | some g =>
      .ok (if jsTruthyStr g.src then
            { d with _graphic := some { g with large := g.src, small := g.src } }
          else d)
  else .ok d

/-- AdaptFrameworkImport.transformData: parent-id rewrite, component-name
rewrite, graphic src fix, then the declared ContentMigrations
(ComponentTransform, VanillaTransform), each invoked without the importer
argument. -/
def transformData (idMap componentNameMap : String → Option String) (d : Item) :
    Except Unit Item :=
  match graphicFix (componentFix componentNameMap (parentFix idMap d)) with
  | .error e => .error e
  | .ok d3 =>
    match ComponentTransform d3 none with
    | .error e => .error e
    | .ok d4 => .ok (VanillaTransform d4)

/-- Context of the counterexample run: the id map sends the package id p1
to the store id N1 and nothing else; the component name map is empty. -/
def idMapEx : String → Option String := fun s => if s = "p1" then some "N1" else none

/-- Empty component-name map of the counterexample run. -/
def cnameEx : String → Option String := fun _ => none

/-- A plain block item of the counterexample, with a parent reference. -/
def itemEx : Item :=
  { _type := "block", _parentId := some "p1", _component := none,
    _graphic := none, _playerOptions := none, _vanilla := none }

/-- A graphic component item (of non-component _type, e.g. nested usage)
with vanilla data, used to exercise the idempotent part of the chain. -/
def itemIdem : Item :=
  { _type := "text", _parentId := none, _component := some "graphic",
    _graphic := some { src := some "img.png", large := none, small := none },
    _playerOptions := none,
    _vanilla := some
      { _backgroundImage := some
          { _large := some (JsPrim.str ""), _medium := some (JsPrim.str "x"),
            _small := none },
        _backgroundStyles := none,
        _minimumHeights := some
          { _large := some (JsPrim.num 0), _medium := none,
            _small := some (JsPrim.num 5) },
        _pageHeader := some
          { _backgroundImage := some
              { _large := some JsPrim.null, _medium := none, _small := none },
            _backgroundStyles := none, _minimumHeights := none } } }

/-- The image of itemIdem under one run of the chain: graphic src copied
into large and small, falsy vanilla subfields deleted. -/
def itemIdemOut : Item :=
  { _type := "text", _parentId := none, _component := some "graphic",
    _graphic := some
      { src := some "img.png", large := some "img.png", small := some "img.png" },
    _playerOptions := none,
    _vanilla := some
      { _backgroundImage := some
          { _large := none, _medium := some (JsPrim.str "x"), _small := none },
        _backgroundStyles := none,
        _minimumHeights := some
          { _large := none, _medium := none, _small := some (JsPrim.num 5) },
        _pageHeader := some
          { _backgroundImage := some
              { _large := none, _medium := none, _small := none },
            _backgroundStyles := none, _minimumHeights := none } } }


end AdaptFramework

namespace AdaptFramework

/-! ### Generic characterisation of one pass of the sorter loop -/

theorem stepItem_cons (c : CO) (i : String) (rest : List String)
    (st : List String × (String → List String)) :
    stepItem (i :: rest) st c =
      stepItem rest
        (if c._parentId = i then
          (st.1 ++ [c._id],
           fun p => if p = c._parentId then st.2 p ++ [c._id] else st.2 p)
        else st) c := rfl

theorem stepItem_not_mem (c : CO) :
    ∀ (l : List String) (st : List String × (String → List String)),
    c._parentId ∉ l → stepItem l st c = st := by
  intro l
  induction l with
  | nil => intro st _; rfl
  | cons i rest ih =>
    intro st h
    simp only [List.mem_cons, not_or] at h
    rw [stepItem_cons, if_neg h.1]
    exact ih st h.2

theorem stepItem_spec (c : CO) :
    ∀ (prev : List String) (nl : List String) (h : String → List String),
    prev.Nodup →
    stepItem prev (nl, h) c =
      (nl ++ (if c._parentId ∈ prev then [c._id] else []),
       fun p => if p = c._parentId ∧ c._parentId ∈ prev then h p ++ [c._id] else h p) := by
  intro prev
  induction prev with
  | nil =>
    intro nl h _
    simp [stepItem]
  | cons i rest ih =>
    intro nl h hnd
    rcases List.nodup_cons.mp hnd with ⟨hi, hrest⟩
    by_cases hc : c._parentId = i
    · subst hc
      rw [stepItem_cons, if_pos rfl,
        stepItem_not_mem c rest _ hi]
      simp only [Prod.mk.injEq]
      refine ⟨by simp, ?_⟩
      funext p
      by_cases hp : p = c._parentId <;> simp [hp]
    · rw [stepItem_cons, if_neg hc, ih nl h hrest]
      have hmem : (c._parentId ∈ i :: rest) ↔ (c._parentId ∈ rest) := by
        simp only [List.mem_cons]
        exact or_iff_right hc
      simp only [Prod.mk.injEq]
      refine ⟨by simp [hmem], ?_⟩
      funext p
      by_cases hp : p = c._parentId <;> simp [hp, hmem]

theorem processLevel_go (prev : List String) (hnd : prev.Nodup) :
    ∀ (cos : List CO) (nl : List String) (h : String → List String),
    cos.foldl (stepItem prev) (nl, h) =
      (nl ++ (cos.filter (fun c => decide (c._parentId ∈ prev))).map CO._id,
       fun p => if p ∈ prev then
          h p ++ (cos.filter (fun c => decide (c._parentId = p))).map CO._id
        else h p) := by
  intro cos
  induction cos with
  | nil =>
    intro nl h
    simp only [List.foldl_nil, List.filter_nil, List.map_nil, List.append_nil,
      Prod.mk.injEq]
    refine ⟨trivial, ?_⟩
    funext p
    by_cases hp : p ∈ prev <;> simp [hp]
  | cons c rest ih =>
    intro nl h
    rw [List.foldl_cons, stepItem_spec c prev nl h hnd, ih]
    simp only [Prod.mk.injEq]
    constructor
    · by_cases hc : c._parentId ∈ prev <;> simp [hc, List.filter_cons]
    · funext p
      by_cases hp : p ∈ prev
      · simp only [if_pos hp]
        by_cases hcp : p = c._parentId
        · subst hcp
          simp [hp, List.filter_cons]
        · have hpc : ¬(c._parentId = p) := fun h' => hcp h'.symm
          simp [List.filter_cons, hpc, hcp]
      · have hno : ¬(p = c._parentId ∧ c._parentId ∈ prev) := by
          rintro ⟨rfl, hm⟩; exact hp hm
        simp [hp, hno]

theorem processLevel_spec (cos : List CO) (prev : List String)
    (hier : String → List String) (hnd : prev.Nodup) :
    processLevel cos prev hier =
      ((cos.filter (fun c => decide (c._parentId ∈ prev))).map CO._id,
       fun p => if p ∈ prev then
          hier p ++ (cos.filter (fun c => decide (c._parentId = p))).map CO._id
        else hier p) := by
  unfold processLevel
  rw [processLevel_go prev hnd cos [] hier]
  simp

end AdaptFramework

namespace AdaptFramework

section ValidTreeFacts

variable {root : String} {cos : List CO} {d : String → Nat}

theorem ValidTree.d_pos (h : ValidTree root cos d) :
    ∀ c ∈ cos, 1 ≤ d c._id := by
  intro c hc
  rw [h.d_step c hc]
  omega

theorem mem_lvlAt_depth (h : ValidTree root cos d) {x : String} {k : Nat}
    (hx : x ∈ lvlAt root cos d k) : d x = k := by
  cases k with
  | zero =>
    simp only [lvlAt, List.mem_singleton] at hx
    rw [hx, h.d_root]
  | succ k =>
    simp only [lvlAt, List.mem_map, List.mem_filter, decide_eq_true_eq] at hx
    obtain ⟨c, ⟨_, hd⟩, rfl⟩ := hx
    exact hd

theorem parent_mem_lvlAt (h : ValidTree root cos d) {c : CO} (hc : c ∈ cos) (k : Nat) :
    c._parentId ∈ lvlAt root cos d k ↔ d c._parentId = k := by
  constructor
  · exact mem_lvlAt_depth h
  · intro hd
    rcases h.parent_mem c hc with hr | ⟨p, hp, hpid⟩
    · subst hr
      rw [h.d_root] at hd
      subst hd
      simp [lvlAt]
    · rw [← hpid] at hd ⊢
      have h1 : 1 ≤ d p._id := h.d_pos p hp
      cases k with
      | zero => omega
      | succ k =>
        simp only [lvlAt, List.mem_map, List.mem_filter, decide_eq_true_eq]
        exact ⟨p, ⟨hp, hd⟩, rfl⟩

theorem lvlAt_nodup (h : ValidTree root cos d) (k : Nat) :
    (lvlAt root cos d k).Nodup := by
  cases k with
  | zero => simp [lvlAt]
  | succ k =>
    have hsub : ((cos.filter (fun c => decide (d c._id = k + 1))).map CO._id).Sublist
        (cos.map CO._id) := (List.filter_sublist cos).map CO._id
    exact h.ids_nodup.sublist hsub

theorem mem_lvlAt_item (h : ValidTree root cos d) {x : String} {k : Nat}
    (hx : x ∈ lvlAt root cos d (k + 1)) : ∃ c ∈ cos, c._id = x := by
  simp only [lvlAt, List.mem_map, List.mem_filter, decide_eq_true_eq] at hx
  obtain ⟨c, ⟨hc, _⟩, rfl⟩ := hx
  exact ⟨c, hc, rfl⟩

/-- Under the validity hypotheses, a string that is neither the root nor an
item id has no children in the set. -/
theorem children_eq_nil_of_stray (h : ValidTree root cos d) {p : String}
    (hp : p ≠ root) (hid : ∀ c ∈ cos, c._id ≠ p) : children cos p = [] := by
  unfold children
  have hnil : List.filter (fun c => decide (c._parentId = p)) cos = [] := by
    rw [List.filter_eq_nil_iff]
    intro c hc
    simp only [decide_eq_true_eq]
    intro hpar
    rcases h.parent_mem c hc with hr | ⟨q, hq, hqid⟩
    · exact hp (hpar ▸ hr)
    · exact hid q hq (hpar ▸ hqid)
  rw [hnil, List.map_nil]

/-- One pass of the loop moves the closed-form state from k to k+1. -/
theorem processLevel_valid (h : ValidTree root cos d) (k : Nat) :
    processLevel cos (lvlAt root cos d k) (hierAt root cos d k) =
      (lvlAt root cos d (k + 1), hierAt root cos d (k + 1)) := by
  rw [processLevel_spec cos _ _ (lvlAt_nodup h k)]
  simp only [Prod.mk.injEq]
  constructor
  · have : cos.filter (fun c => decide (c._parentId ∈ lvlAt root cos d k)) =
        cos.filter (fun c => decide (d c._id = k + 1)) := by
      apply List.filter_congr
      intro c hc
      rw [decide_eq_decide]
      rw [parent_mem_lvlAt h hc k, h.d_step c hc]
      omega
    rw [this]
    rfl
  · funext p
    by_cases hp : p ∈ lvlAt root cos d k
    · have hd : d p = k := mem_lvlAt_depth h hp
      rw [if_pos hp]
      simp only [hierAt, hd]
      rw [if_neg (lt_irrefl k), if_pos (Nat.lt_succ_self k), List.nil_append]
      rfl
    · simp only [if_neg hp, hierAt]
      by_cases hlt : d p < k
      · have hlt1 : d p < k + 1 := Nat.lt_succ_of_lt hlt
        simp [hlt, hlt1]
      · have hnot1 : ¬ d p < k + 1 ∨ d p = k := by omega
        rcases hnot1 with hn | heq
        · simp [hlt, hn]
        · -- p is at depth k but not in level k, so it is a stray name with
          -- no children
          have hchil : children cos p = [] := by
            apply children_eq_nil_of_stray h
            · intro hr
              subst hr
              rw [h.d_root] at heq
              subst heq
              simp [lvlAt] at hp
            · intro c hc hcp
              subst hcp
              apply hp
              rw [← heq] at hp ⊢
              cases hk : d c._id with
              | zero =>
                have := h.d_pos c hc
                omega
              | succ m =>
                simp only [lvlAt, List.mem_map, List.mem_filter,
                  decide_eq_true_eq]
                exact ⟨c, ⟨hc, by rw [hk]⟩, rfl⟩
          have hlt1 : d p < k + 1 := by omega
          simp [hlt, hlt1, hchil]

theorem cntAt_zero (h : ValidTree root cos d) : cntAt cos d 0 = 0 := by
  unfold cntAt
  have : cos.filter (fun c => decide (d c._id ≤ 0)) = [] := by
    rw [List.filter_eq_nil_iff]
    intro c hc
    have := h.d_pos c hc
    simp only [decide_eq_true_eq]
    omega
  rw [this, List.length_nil]

theorem cntAt_succ (k : Nat) :
    cntAt cos d (k + 1) = cntAt cos d k + (lvlAt root cos d (k + 1)).length := by
  show _ = _ + ((cos.filter (fun c => decide (d c._id = k + 1))).map CO._id).length
  rw [List.length_map]
  unfold cntAt
  induction cos with
  | nil => simp
  | cons c rest ih =>
    by_cases h1 : d c._id ≤ k
    · have h2 : d c._id ≤ k + 1 := by omega
      have h3 : ¬ d c._id = k + 1 := by omega
      simp [List.filter_cons, h1, h2, h3, ih]
      omega
    · by_cases h2 : d c._id = k + 1
      · have h3 : d c._id ≤ k + 1 := by omega
        simp [List.filter_cons, h1, h2, h3, ih]
        omega
      · have h3 : ¬ d c._id ≤ k + 1 := by omega
        simp [List.filter_cons, h1, h2, h3, ih]

theorem cntAt_le_length (k : Nat) : cntAt cos d k ≤ cos.length :=
  List.length_filter_le _ _

theorem cntAt_eq_length_all (k : Nat) (hcnt : cntAt cos d k = cos.length) :
    ∀ c ∈ cos, d c._id ≤ k := by
  have hfil : cos.filter (fun c => decide (d c._id ≤ k)) = cos :=
    (List.filter_sublist cos).eq_of_length hcnt
  intro c hc
  have : c ∈ cos.filter (fun c => decide (d c._id ≤ k)) := by
    rw [hfil]; exact hc
  have := List.of_mem_filter this
  simpa using this

/-- Descending the parent chain from any item deeper than k reaches an item
at depth exactly k+1. -/
theorem exists_depth_succ (h : ValidTree root cos d) (k : Nat) :
    ∀ n, ∀ c ∈ cos, d c._id = n → k < n → ∃ c2 ∈ cos, d c2._id = k + 1 := by
  intro n
  induction n using Nat.strong_induction_on with
  | _ n ih =>
    intro c hc hdc hkn
    by_cases heq : n = k + 1
    · exact ⟨c, hc, heq ▸ hdc⟩
    · have hstep := h.d_step c hc
      rcases h.parent_mem c hc with hr | ⟨p, hp, hpid⟩
      · rw [hr, h.d_root] at hstep
        omega
      · have hdp : d p._id = n - 1 := by
          rw [hpid]
          omega
        exact ih (n - 1) (by omega) p hp hdp (by omega)

theorem lvl_succ_ne_nil (h : ValidTree root cos d) (k : Nat)
    (hcnt : cntAt cos d k < cos.length) : lvlAt root cos d (k + 1) ≠ [] := by
  have hex : ∃ c ∈ cos, ¬ d c._id ≤ k := by
    by_contra hall
    push_neg at hall
    have : cos.filter (fun c => decide (d c._id ≤ k)) = cos := by
      rw [List.filter_eq_self]
      intro c hc
      simpa using hall c hc
    unfold cntAt at hcnt
    rw [this] at hcnt
    omega
  obtain ⟨c, hc, hdeep⟩ := hex
  obtain ⟨c2, hc2, hd2⟩ := exists_depth_succ h k (d c._id) c hc rfl (by omega)
  intro hnil
  have : c2._id ∈ lvlAt root cos d (k + 1) := by
    simp only [lvlAt, List.mem_map, List.mem_filter, decide_eq_true_eq]
    exact ⟨c2, ⟨hc2, hd2⟩, rfl⟩
  rw [hnil] at this
  exact (List.not_mem_nil _) this

theorem levelsUpTo_succ (k : Nat) :
    levelsUpTo root cos d (k + 1) = levelsUpTo root cos d k ++ [lvlAt root cos d (k + 1)] := by
  unfold levelsUpTo
  rw [List.range_succ, List.map_append, List.map_singleton]

/-- Master lemma: started from the closed-form state after k passes with
enough fuel, the sorter loop runs to completion and returns the closed-form
levels and hierarchy of some final pass K at which every item has been
placed. -/
theorem sortLoop_master (h : ValidTree root cos d) :
    ∀ (fuel k : Nat), cos.length - cntAt cos d k < fuel →
    ∃ K, k ≤ K ∧ cntAt cos d K = cos.length ∧
      sortLoop cos fuel (levelsUpTo root cos d k) (lvlAt root cos d k)
          (hierAt root cos d k) (cntAt cos d k) =
        .ok ⟨levelsUpTo root cos d K, hierAt root cos d K⟩ := by
  intro fuel
  induction fuel with
  | zero => intro k hk; omega
  | succ fuel ih =>
    intro k hk
    by_cases hlt : cntAt cos d k < cos.length
    · have hpass := processLevel_valid h k
      have hne := lvl_succ_ne_nil h k hlt
      have hfuel2 : cos.length - cntAt cos d (k + 1) < fuel := by
        have hlen1 : 1 ≤ (lvlAt root cos d (k + 1)).length :=
          List.length_pos.mpr hne
        have := @cntAt_succ root cos d k
        have := @cntAt_le_length cos d (k + 1)
        omega
      obtain ⟨K, hkK, hKlen, hrec⟩ := ih (k + 1) hfuel2
      refine ⟨K, by omega, hKlen, ?_⟩
      show sortLoop cos (fuel + 1) _ _ _ _ = _
      rw [sortLoop, if_pos hlt, hpass]
      simp only
      rw [if_neg (by simpa [List.isEmpty_iff] using hne)]
      rw [← @cntAt_succ root cos d k, ← levelsUpTo_succ k]
      exact hrec
    · have hcnt : cntAt cos d k = cos.length :=
        Nat.le_antisymm (cntAt_le_length k) (by omega)
      refine ⟨k, le_refl k, hcnt, ?_⟩
      rw [sortLoop, if_neg hlt]

end ValidTreeFacts

end AdaptFramework

namespace AdaptFramework

/-- Granting more fuel never changes a run of the loop that did not run out
of fuel: the fuel is an artefact of the embedding, not of the algorithm. -/
theorem sortLoop_mono (cos : List CO) :
    ∀ (fuel₁ fuel₂ : Nat) (acc : List (List String)) (prev : List String)
      (hier : String → List String) (count : Nat),
    fuel₁ ≤ fuel₂ →
    sortLoop cos fuel₁ acc prev hier count ≠ .error .OUT_OF_FUEL →
    sortLoop cos fuel₂ acc prev hier count = sortLoop cos fuel₁ acc prev hier count := by
  intro fuel₁
  induction fuel₁ with
  | zero =>
    intro fuel₂ acc prev hier count _ hne
    exact absurd rfl hne
  | succ fuel ih =>
    intro fuel₂ acc prev hier count hle hne
    obtain ⟨fuel₂, rfl⟩ : ∃ f, fuel₂ = f + 1 :=
      ⟨fuel₂ - 1, by omega⟩
    rw [sortLoop, sortLoop]
    by_cases hlt : count < cos.length
    · rw [if_pos hlt, if_pos hlt]
      simp only
      by_cases hemp : (processLevel cos prev hier).1.isEmpty
      · rw [if_pos hemp, if_pos hemp]
      · rw [if_neg hemp, if_neg hemp]
        apply ih
        · omega
        · intro hbad
          apply hne
          rw [sortLoop, if_pos hlt]
          simp only
          rw [if_neg hemp]
          exact hbad
    · rw [if_neg hlt, if_neg hlt]

/-- Concatenating two filters of disjoint predicates is a permutation of the
filter of their disjunction. -/
theorem filter_or_perm {α : Type} (p q : α → Bool) :
    ∀ l : List α, (∀ a ∈ l, ¬(p a = true ∧ q a = true)) →
    (l.filter (fun a => p a || q a)).Perm (l.filter p ++ l.filter q) := by
  intro l
  induction l with
  | nil => intro _; simp
  | cons a t ih =>
    intro hdisj
    have ht := ih (fun x hx => hdisj x (List.mem_cons_of_mem a hx))
    have ha := hdisj a (List.mem_cons_self a t)
    cases hp : p a <;> cases hq : q a
    · simpa [List.filter_cons, hp, hq] using ht
    · simp only [List.filter_cons, hp, hq, Bool.false_or, cond_true, cond_false]
      refine List.Perm.trans (ht.cons a) ?_
      exact List.perm_middle.symm
    · simpa [List.filter_cons, hp, hq] using ht.cons a
    · exact absurd ⟨hp, hq⟩ ha

end AdaptFramework

namespace AdaptFramework

section ValidPerm

variable {root : String} {cos : List CO} {d : String → Nat}

theorem flatten_mid_levels (h : ValidTree root cos d) :
    ∀ k : Nat,
    (((List.range k).map (fun j => lvlAt root cos d (j + 1))).flatten).Perm
      ((cos.filter (fun c => decide (d c._id ≤ k))).map CO._id) := by
  intro k
  induction k with
  | zero =>
    have hnil : cos.filter (fun c => decide (d c._id ≤ 0)) = [] := by
      rw [List.filter_eq_nil_iff]
      intro c hc
      have := h.d_pos c hc
      simp only [decide_eq_true_eq]
      omega
    rw [List.range_zero, List.map_nil, List.flatten_nil, hnil, List.map_nil]
  | succ k ih =>
    rw [List.range_succ, List.map_append, List.map_singleton,
      List.flatten_append]
    have hstep : (cos.filter (fun c => decide (d c._id ≤ k + 1))).Perm
        (cos.filter (fun c => decide (d c._id ≤ k)) ++
         cos.filter (fun c => decide (d c._id = k + 1))) := by
      have hcongr : cos.filter (fun c => decide (d c._id ≤ k + 1)) =
          cos.filter (fun c => decide (d c._id ≤ k) || decide (d c._id = k + 1)) := by
        apply List.filter_congr
        intro c _
        by_cases h1 : d c._id ≤ k
        · have h2 : d c._id ≤ k + 1 := by omega
          simp [h1, h2]
        · by_cases h2 : d c._id = k + 1
          · simp [h1, h2]
          · have h3 : ¬ d c._id ≤ k + 1 := by omega
            simp [h1, h2, h3]
      rw [hcongr]
      apply filter_or_perm
      intro c _
      simp only [decide_eq_true_eq, not_and]
      omega
    have hl : lvlAt root cos d (k + 1) =
        (cos.filter (fun c => decide (d c._id = k + 1))).map CO._id := rfl
    rw [List.flatten_cons, List.flatten_nil, List.append_nil]
    refine List.Perm.trans (List.Perm.append ih (List.Perm.refl _)) ?_
    rw [hl, ← List.map_append]
    exact (hstep.map CO._id).symm

/-- With every item placed by pass K, the concatenation of the levels is a
permutation of the root followed by all item ids. -/
theorem levelsUpTo_flatten_perm (h : ValidTree root cos d) (K : Nat)
    (hall : ∀ c ∈ cos, d c._id ≤ K) :
    ((levelsUpTo root cos d K).flatten).Perm (root :: cos.map CO._id) := by
  have hfil : cos.filter (fun c => decide (d c._id ≤ K)) = cos := by
    rw [List.filter_eq_self]
    intro c hc
    simpa using hall c hc
  unfold levelsUpTo
  rw [List.range_succ_eq_map, List.map_cons, List.flatten_cons, List.map_map]
  have hmid := flatten_mid_levels h K
  rw [hfil] at hmid
  have hcomp : (lvlAt root cos d ∘ Nat.succ) = fun j => lvlAt root cos d (j + 1) := rfl
  rw [hcomp]
  show (lvlAt root cos d 0 ++ _).Perm _
  have h0 : lvlAt root cos d 0 = [root] := rfl
  rw [h0]
  exact hmid.cons root

theorem levelsUpTo_length (K : Nat) :
    (levelsUpTo root cos d K).length = K + 1 := by
  unfold levelsUpTo
  rw [List.length_map, List.length_range]

theorem levelsUpTo_get (K i : Nat) (hi : i < (levelsUpTo root cos d K).length) :
    (levelsUpTo root cos d K).get ⟨i, hi⟩ = lvlAt root cos d i := by
  unfold levelsUpTo
  simp

end ValidPerm

end AdaptFramework

namespace AdaptFramework

theorem getSortedData_init (root : String) (cos : List CO) (d : String → Nat)
    (h : ValidTree root cos d) :
    ∀ fuel, cos.length - cntAt cos d 0 < fuel →
    ∃ K, cntAt cos d K = cos.length ∧
      sortLoop cos fuel [[root]] [root] (fun _ => []) 0 =
        .ok ⟨levelsUpTo root cos d K, hierAt root cos d K⟩ := by
  intro fuel hfuel
  obtain ⟨K, _, hKlen, hrun⟩ := sortLoop_master h fuel 0 hfuel
  refine ⟨K, hKlen, ?_⟩
  have hacc : levelsUpTo root cos d 0 = [[root]] := rfl
  have hlvl : lvlAt root cos d 0 = [root] := rfl
  have hhier : hierAt root cos d 0 = (fun _ => []) := by
    funext p
    simp [hierAt]
  have hcnt : cntAt cos d 0 = 0 := cntAt_zero h
  rw [hacc, hlvl, hhier, hcnt] at hrun
  exact hrun

/-- C1.  For a valid single-rooted item set, getSortedData terminates
successfully (for its own fuel budget and any larger one), the
concatenation of the returned levels is a permutation of the course root
followed by the item ids (each item exactly once), and every item sits in
a level of strictly larger index than the level holding its parent. -/
theorem getSortedData_valid_spec (root : String) (cos : List CO) (d : String → Nat)
    (h : ValidTree root cos d) :
    ∃ r : SortResult,
      getSortedData root cos = .ok r ∧
      (∀ fuel, cos.length + 1 ≤ fuel →
        sortLoop cos fuel [[root]] [root] (fun _ => []) 0 = .ok r) ∧
      r.sorted.flatten.Perm (root :: cos.map CO._id) ∧
      (∀ c ∈ cos, ∀ (i j : Nat) (hi : i < r.sorted.length) (hj : j < r.sorted.length),
        c._id ∈ r.sorted.get ⟨i, hi⟩ → c._parentId ∈ r.sorted.get ⟨j, hj⟩ → j < i) := by
  obtain ⟨K, hKlen, hrun⟩ := getSortedData_init root cos d h (cos.length + 1) (by omega)
  refine ⟨⟨levelsUpTo root cos d K, hierAt root cos d K⟩, hrun, ?_, ?_, ?_⟩
  · intro fuel hfuel
    rw [sortLoop_mono cos (cos.length + 1) fuel [[root]] [root] (fun _ => []) 0 hfuel
      (by rw [hrun]; intro hbad; exact Except.noConfusion hbad)]
    exact hrun
  · exact levelsUpTo_flatten_perm h K (cntAt_eq_length_all K hKlen)
  · intro c hc i j hi hj hci hcj
    simp only at hci hcj
    rw [levelsUpTo_get K i hi] at hci
    rw [levelsUpTo_get K j hj] at hcj
    have e1 : d c._id = i := mem_lvlAt_depth h hci
    have e2 : d c._parentId = j := mem_lvlAt_depth h hcj
    have e3 := h.d_step c hc
    omega

end AdaptFramework

namespace AdaptFramework

/-- C7 (amended): for a valid item set the
parent-to-children map lists every parent's children in input order —
whatever _sortOrder fields the items declare — and the _sortOrder assigned
to each inserted item is one more than its position among its input-order
siblings. -/
theorem getSortedData_children_input_order (root : String) (cos : List CO)
    (d : String → Nat) (h : ValidTree root cos d) :
    ∃ r : SortResult,
      getSortedData root cos = .ok r ∧
      (∀ p : String, r.hierarchy p = children cos p) ∧
      (∀ c ∈ cos, assignedSortOrder r c =
        jsIndexOf (children cos c._parentId) c._id + 1) := by
  obtain ⟨K, hKlen, hrun⟩ := getSortedData_init root cos d h (cos.length + 1) (by omega)
  have hall := cntAt_eq_length_all K hKlen
  have hhier : ∀ p : String, hierAt root cos d K p = children cos p := by
    intro p
    by_cases hp : d p < K
    · simp [hierAt, hp]
    · have hnil : children cos p = [] := by
        unfold children
        have : cos.filter (fun c => decide (c._parentId = p)) = [] := by
          rw [List.filter_eq_nil_iff]
          intro c hc
          simp only [decide_eq_true_eq]
          intro hpar
          have e1 := h.d_step c hc
          have e2 := hall c hc
          rw [hpar] at e1
          omega
        rw [this, List.map_nil]
      simp [hierAt, hp, hnil]
  refine ⟨⟨levelsUpTo root cos d K, hierAt root cos d K⟩, hrun, hhier, ?_⟩
  intro c hc
  show jsIndexOf (hierAt root cos d K c._parentId) c._id + 1 = _
  rw [hhier c._parentId]

theorem getSortedData_valid_spec_witness :
    ∃ r : SortResult,
      getSortedData "c1" cosChain = .ok r ∧
      (∀ fuel, cosChain.length + 1 ≤ fuel →
        sortLoop cosChain fuel [["c1"]] ["c1"] (fun _ => []) 0 = .ok r) ∧
      r.sorted.flatten.Perm ("c1" :: cosChain.map CO._id) ∧
      (∀ c ∈ cosChain, ∀ (i j : Nat) (hi : i < r.sorted.length) (hj : j < r.sorted.length),
        c._id ∈ r.sorted.get ⟨i, hi⟩ → c._parentId ∈ r.sorted.get ⟨j, hj⟩ → j < i) :=
  getSortedData_valid_spec "c1" cosChain dChain
    ⟨by decide, by decide, by decide, by decide, by decide⟩

/-- C7 counterexample: the two siblings of cosSiblings declare explicit
_sortOrder values putting a before b, yet the sorter emits the children of
r in input order b, a and assigns b the _sortOrder 1 (the claim demands 2,
the declared value). -/
theorem sorter_ignores_explicit_sortOrder :
    sortedHierarchyAt "r" cosSiblings "r" = some ["b", "a"] ∧
    ¬ followsSortOrder cosSiblings ["b", "a"] ∧
    sortedOrderOf "r" cosSiblings { _id := "b", _parentId := "r", _sortOrder := some 2 }
      = some 1 ∧
    ({ _id := "b", _parentId := "r", _sortOrder := some 2 } : CO) ∈ cosSiblings := by
  refine ⟨by decide, by unfold followsSortOrder; decide, by decide, by decide⟩

theorem getSortedData_children_input_order_witness :
    ∃ r : SortResult,
      getSortedData "r" cosSiblings = .ok r ∧
      (∀ p : String, r.hierarchy p = children cosSiblings p) ∧
      (∀ c ∈ cosSiblings, assignedSortOrder r c =
        jsIndexOf (children cosSiblings c._parentId) c._id + 1) :=
  getSortedData_children_input_order "r" cosSiblings dSiblings
    ⟨by decide, by decide, by decide, by decide, by decide⟩

/-- C6 counterexample: cosRootClash contains the orphan o whose parent zzz
is neither an item id nor the root, yet getSortedData returns levels
successfully (the item reusing the root id is counted twice, so the loop
exits without ever producing an empty pass), silently dropping o. -/
theorem sorter_orphan_no_error_on_root_clash :
    sortedLevels "r" cosRootClash = some [["r"], ["x", "r"], ["x", "r"]] ∧
    ({ _id := "o", _parentId := "zzz" } : CO) ∈ cosRootClash ∧
    (∀ c ∈ cosRootClash, c._id ≠ "zzz") ∧ ("zzz" : String) ≠ "r" := by
  refine ⟨by decide, by decide, by decide, by decide⟩

end AdaptFramework

namespace AdaptFramework

section OrphanFacts

variable {root : String} {cos : List CO} {acc : List (List String)}
variable {prev : List String} {count : Nat}

theorem SortInv.length_pos (inv : SortInv root cos acc prev count) :
    0 < acc.length := by
  cases acc with
  | nil => exact absurd inv.head_eq (by simp)
  | cons a t => simp

theorem SortInv.get_zero (inv : SortInv root cos acc prev count)
    (h0 : 0 < acc.length) : acc.get ⟨0, h0⟩ = [root] := by
  cases acc with
  | nil => simp at h0
  | cons a t =>
    have h := inv.head_eq
    rw [List.head?_cons] at h
    simpa using Option.some.inj h

theorem SortInv.prev_eq_get (inv : SortInv root cos acc prev count)
    (hL : 0 < acc.length) :
    acc.get ⟨acc.length - 1, by omega⟩ = prev := by
  have h := inv.last_eq
  rw [List.getLast?_eq_getElem?, List.getElem?_eq_getElem (by omega)] at h
  have h2 := Option.some.inj h
  simpa using h2

theorem SortInv.prev_nodup (inv : SortInv root cos acc prev count) :
    prev.Nodup := by
  have hL := inv.length_pos
  rw [← inv.prev_eq_get hL]
  exact inv.nodups _ _

theorem SortInv.level_elem (inv : SortInv root cos acc prev count) :
    ∀ (j : Nat) (hj : j < acc.length), ∀ x ∈ acc.get ⟨j, hj⟩,
    x = root ∨ ∃ c ∈ cos, c._id = x := by
  intro j hj x hx
  cases j with
  | zero =>
    left
    rw [inv.get_zero hj] at hx
    simpa using hx
  | succ m =>
    right
    obtain ⟨c, hc, hcid, _⟩ := inv.chain m hj x hx
    exact ⟨c, hc, hcid⟩

theorem drop_one_get (acc : List (List String)) (m : Fin (List.drop 1 acc).length) :
    ∃ hj : (m : Nat) + 1 < acc.length,
    (List.drop 1 acc).get m = acc.get ⟨(m : Nat) + 1, hj⟩ := by
  have hm2 : (m : Nat) < (List.drop 1 acc).length := m.2
  have hlen2 : (List.drop 1 acc).length = acc.length - 1 := List.length_drop 1 acc
  refine ⟨by omega, ?_⟩
  simp only [List.get_eq_getElem, List.getElem_drop]
  congr 1
  omega

theorem SortInv.count_lt_length {o : CO}
    (inv : SortInv root cos acc prev count)
    (hnodup : (cos.map CO._id).Nodup)
    (ho : o ∈ cos) (hop1 : o._parentId ≠ root)
    (hop2 : ∀ c ∈ cos, c._id ≠ o._parentId) :
    count < cos.length := by
  have hmem : ∀ x ∈ (acc.drop 1).flatten,
      ∃ (j : Nat) (hj : j + 1 < acc.length), x ∈ acc.get ⟨j + 1, hj⟩ := by
    intro x hx
    rw [List.mem_flatten] at hx
    obtain ⟨L, hLmem, hxL⟩ := hx
    obtain ⟨m, hm⟩ := List.mem_iff_get.mp hLmem
    obtain ⟨hj, hg⟩ := drop_one_get acc m
    refine ⟨m, hj, ?_⟩
    rw [← hm, hg] at hxL
    exact hxL
  have hsub : ∀ x ∈ (acc.drop 1).flatten, ∃ c ∈ cos, c._id = x := by
    intro x hx
    obtain ⟨j, hj, hjx⟩ := hmem x hx
    obtain ⟨c, hc, hcid, _⟩ := inv.chain j hj x hjx
    exact ⟨c, hc, hcid⟩
  have hno : o._id ∉ (acc.drop 1).flatten := by
    intro hx
    obtain ⟨j, hj, hjx⟩ := hmem _ hx
    obtain ⟨c, hc, hcid, hpar⟩ := inv.chain j hj _ hjx
    have hco : c = o := List.inj_on_of_nodup_map hnodup hc ho hcid
    subst hco
    rcases inv.level_elem j _ _ hpar with h1 | ⟨c2, hc2, hc2id⟩
    · exact hop1 h1
    · exact hop2 c2 hc2 hc2id
  have hnd : ((acc.drop 1).flatten).Nodup := by
    rw [List.nodup_flatten]
    constructor
    · intro l hl
      obtain ⟨m, hm⟩ := List.mem_iff_get.mp hl
      obtain ⟨hj, hg⟩ := drop_one_get acc m
      rw [← hm, hg]
      exact inv.nodups _ _
    · rw [List.pairwise_iff_get]
      intro i j hij x hxi hxj
      obtain ⟨hji, hgi⟩ := drop_one_get acc i
      obtain ⟨hjj, hgj⟩ := drop_one_get acc j
      rw [hgi] at hxi
      rw [hgj] at hxj
      have heq := inv.disj ((i : Nat) + 1) ((j : Nat) + 1) hji hjj x hxi hxj
      have hij2 : (i : Nat) < (j : Nat) := hij
      omega
  have hsubperm : (o._id :: (acc.drop 1).flatten).Subperm (cos.map CO._id) := by
    apply List.Nodup.subperm
    · exact List.nodup_cons.mpr ⟨hno, hnd⟩
    · intro x hx
      rcases List.mem_cons.mp hx with rfl | hx2
      · exact List.mem_map.mpr ⟨o, ho, rfl⟩
      · obtain ⟨c, hc, hcid⟩ := hsub x hx2
        exact List.mem_map.mpr ⟨c, hc, hcid⟩
  have hlen := hsubperm.length_le
  rw [List.length_cons, List.length_map] at hlen
  rw [inv.count_eq]
  omega

/-- An id occurring in any accumulated level cannot also be pushed into
the new level: its parent would have to live both in the level right above
it and in the last level, which the disjointness invariant forbids. -/
theorem SortInv.not_mem_new
    (inv : SortInv root cos acc prev count)
    (hnodup : (cos.map CO._id).Nodup)
    (hroot : ∀ c ∈ cos, c._id ≠ root) :
    ∀ (j : Nat) (hj : j < acc.length) (x : String), x ∈ acc.get ⟨j, hj⟩ →
    x ∈ (cos.filter (fun c => decide (c._parentId ∈ prev))).map CO._id → False := by
  intro j hj x hxacc hxnew
  simp only [List.mem_map, List.mem_filter, decide_eq_true_eq] at hxnew
  obtain ⟨c, ⟨hc, hcprev⟩, hcid⟩ := hxnew
  have hL := inv.length_pos
  rw [← inv.prev_eq_get hL] at hcprev
  cases j with
  | zero =>
    rw [inv.get_zero hj] at hxacc
    have : x = root := by simpa using hxacc
    exact hroot c hc (by rw [hcid, this])
  | succ m =>
    obtain ⟨c2, hc2, hc2id, hc2par⟩ := inv.chain m hj x hxacc
    have hcc : c2 = c := List.inj_on_of_nodup_map hnodup hc2 hc (by rw [hc2id, hcid])
    subst hcc
    have heq := inv.disj m (acc.length - 1) (Nat.lt_of_succ_lt hj) (by omega)
      c2._parentId hc2par hcprev
    omega

/-- One successful pass of the loop preserves the invariant. -/
theorem SortInv.step
    (inv : SortInv root cos acc prev count)
    (hnodup : (cos.map CO._id).Nodup)
    (hroot : ∀ c ∈ cos, c._id ≠ root) :
    SortInv root cos
      (acc ++ [(cos.filter (fun c => decide (c._parentId ∈ prev))).map CO._id])
      ((cos.filter (fun c => decide (c._parentId ∈ prev))).map CO._id)
      (count + ((cos.filter (fun c => decide (c._parentId ∈ prev))).map CO._id).length) := by
  obtain ⟨a, t, rfl⟩ : ∃ a t, acc = a :: t := by
    cases acc with
    | nil => exact absurd inv.head_eq (by simp)
    | cons a t => exact ⟨a, t, rfl⟩
  set nl := (cos.filter (fun c => decide (c._parentId ∈ prev))).map CO._id with hnl
  have hLnew : ((a :: t) ++ [nl]).length = (a :: t).length + 1 := by
    rw [List.length_append, List.length_singleton]
  have hget_left : ∀ (j : Nat) (hj : j < (a :: t).length)
      (hj2 : j < ((a :: t) ++ [nl]).length),
      ((a :: t) ++ [nl]).get ⟨j, hj2⟩ = (a :: t).get ⟨j, hj⟩ := by
    intro j hj hj2
    simp only [List.get_eq_getElem]
    exact List.getElem_append_left hj
  have hget_last : ∀ (hj2 : (a :: t).length < ((a :: t) ++ [nl]).length),
      ((a :: t) ++ [nl]).get ⟨(a :: t).length, hj2⟩ = nl := by
    intro hj2
    simp only [List.get_eq_getElem]
    rw [List.getElem_append_right (Nat.le_refl _)]
    simp
  refine ⟨?_, ?_, ?_, ?_, ?_, ?_⟩
  · have h := inv.head_eq
    rw [List.head?_cons] at h
    rw [List.cons_append, List.head?_cons, h]
  · exact List.getLast?_concat _
  · intro j hj x hx
    by_cases hjL : j + 1 < (a :: t).length
    · rw [hget_left (j + 1) hjL _] at hx
      obtain ⟨c, hc, hcid, hpar⟩ := inv.chain j hjL x hx
      refine ⟨c, hc, hcid, ?_⟩
      rw [hget_left j (Nat.lt_of_succ_lt hjL) _]
      exact hpar
    · have hjeq : j + 1 = (a :: t).length := by
        rw [hLnew] at hj
        omega
      have hx2 : x ∈ nl := by
        have := hget_last (by omega)
        rw [show (⟨j + 1, hj⟩ : Fin (((a :: t) ++ [nl]).length)) =
          ⟨(a :: t).length, by omega⟩ from by simp [hjeq]] at hx
        rw [this] at hx
        exact hx
      simp only [hnl, List.mem_map, List.mem_filter, decide_eq_true_eq] at hx2
      obtain ⟨c, ⟨hc, hcprev⟩, hcid⟩ := hx2
      refine ⟨c, hc, hcid, ?_⟩
      have hL := inv.length_pos
      rw [← inv.prev_eq_get hL] at hcprev
      have hjm : j = (a :: t).length - 1 := by omega
      rw [hget_left j (by omega) _]
      rw [show (⟨j, by omega⟩ : Fin (a :: t).length) =
        ⟨(a :: t).length - 1, by omega⟩ from by simp [hjm]]
      exact hcprev
  · intro j k hj hk x hxj hxk
    by_cases hjL : j < (a :: t).length <;> by_cases hkL : k < (a :: t).length
    · rw [hget_left j hjL _] at hxj
      rw [hget_left k hkL _] at hxk
      exact inv.disj j k hjL hkL x hxj hxk
    · have hkeq : k = (a :: t).length := by
        rw [hLnew] at hk
        omega
      rw [hget_left j hjL _] at hxj
      rw [show (⟨k, hk⟩ : Fin (((a :: t) ++ [nl]).length)) =
        ⟨(a :: t).length, by omega⟩ from by simp [hkeq], hget_last _] at hxk
      exact (inv.not_mem_new hnodup hroot j hjL x hxj hxk).elim
    · have hjeq : j = (a :: t).length := by
        rw [hLnew] at hj
        omega
      rw [hget_left k hkL _] at hxk
      rw [show (⟨j, hj⟩ : Fin (((a :: t) ++ [nl]).length)) =
        ⟨(a :: t).length, by omega⟩ from by simp [hjeq], hget_last _] at hxj
      exact (inv.not_mem_new hnodup hroot k hkL x hxk hxj).elim
    · rw [hLnew] at hj hk
      omega
  · intro j hj
    by_cases hjL : j < (a :: t).length
    · rw [hget_left j hjL _]
      exact inv.nodups j hjL
    · have hjeq : j = (a :: t).length := by
        rw [hLnew] at hj
        omega
      rw [show (⟨j, hj⟩ : Fin (((a :: t) ++ [nl]).length)) =
        ⟨(a :: t).length, by omega⟩ from by simp [hjeq], hget_last _]
      exact hnodup.sublist ((List.filter_sublist cos).map CO._id)
  · rw [List.cons_append, List.drop_succ_cons, List.drop_zero] at *
    show _ = ((t ++ [nl]).flatten).length
    rw [List.flatten_append, List.length_append]
    have : count = ((( a :: t).drop 1).flatten).length := inv.count_eq
    rw [List.drop_succ_cons, List.drop_zero] at this
    rw [this]
    simp

end OrphanFacts

end AdaptFramework

namespace AdaptFramework

/-- On an item set with distinct ids (none the root id) containing an
orphan, every sufficiently fuelled run of the sorter loop from an
invariant state ends in IMPORT_CONTENT_SORT_FAILED. -/
theorem sortLoop_orphan (root : String) (cos : List CO) (o : CO)
    (hnodup : (cos.map CO._id).Nodup)
    (hroot : ∀ c ∈ cos, c._id ≠ root)
    (ho : o ∈ cos) (hop1 : o._parentId ≠ root)
    (hop2 : ∀ c ∈ cos, c._id ≠ o._parentId) :
    ∀ (fuel : Nat) (acc : List (List String)) (prev : List String)
      (hier : String → List String) (count : Nat),
    SortInv root cos acc prev count →
    cos.length + 1 ≤ fuel + count →
    sortLoop cos fuel acc prev hier count = .error .IMPORT_CONTENT_SORT_FAILED := by
  intro fuel
  induction fuel with
  | zero =>
    intro acc prev hier count inv hfc
    have := inv.count_lt_length hnodup ho hop1 hop2
    omega
  | succ fuel ih =>
    intro acc prev hier count inv hfc
    have hcl : count < cos.length := inv.count_lt_length hnodup ho hop1 hop2
    rw [sortLoop, if_pos hcl]
    simp only
    rw [processLevel_spec cos prev hier inv.prev_nodup]
    by_cases hemp :
        ((cos.filter (fun c => decide (c._parentId ∈ prev))).map CO._id).isEmpty
    · rw [if_pos hemp]
    · rw [if_neg hemp]
      show sortLoop cos fuel
          (acc ++ [(cos.filter (fun c => decide (c._parentId ∈ prev))).map CO._id])
          ((cos.filter (fun c => decide (c._parentId ∈ prev))).map CO._id)
          (fun p => if p ∈ prev then
            hier p ++ (cos.filter (fun c => decide (c._parentId = p))).map CO._id
           else hier p)
          (count + ((cos.filter (fun c => decide (c._parentId ∈ prev))).map CO._id).length) = _
      apply ih
      · exact inv.step hnodup hroot
      · have h1 : ((cos.filter (fun c => decide (c._parentId ∈ prev))).map CO._id) ≠ [] := by
          intro hbad
          rw [hbad] at hemp
          exact hemp rfl
        have h2 := List.length_pos.mpr h1
        omega

/-- C6 (amended).  If the item set registers every item under a distinct
id and no item reuses the root id (both guaranteed when the set comes from
the id-keyed contentObjects map and no item id collides with the course
id), then the presence of an item whose parent id is neither in the set
nor the root makes getSortedData terminate by raising
IMPORT_CONTENT_SORT_FAILED — and it does so under every sufficient fuel
budget, so the loop never runs unboundedly. -/
theorem getSortedData_orphan_spec (root : String) (cos : List CO) (o : CO)
    (hnodup : (cos.map CO._id).Nodup)
    (hroot : ∀ c ∈ cos, c._id ≠ root)
    (ho : o ∈ cos) (hop1 : o._parentId ≠ root)
    (hop2 : ∀ c ∈ cos, c._id ≠ o._parentId) :
    getSortedData root cos = .error .IMPORT_CONTENT_SORT_FAILED ∧
    (∀ fuel, cos.length + 1 ≤ fuel →
      sortLoop cos fuel [[root]] [root] (fun _ => []) 0 =
        .error .IMPORT_CONTENT_SORT_FAILED) := by
  have inv0 : SortInv root cos [[root]] [root] 0 := by
    refine ⟨rfl, rfl, ?_, ?_, ?_, rfl⟩
    · intro j hj
      simp at hj
    · intro j k hj hk x _ _
      simp at hj hk
      omega
    · intro j hj
      simp at hj
      subst hj
      simp
  constructor
  · exact sortLoop_orphan root cos o hnodup hroot ho hop1 hop2
      (cos.length + 1) _ _ _ 0 inv0 (by omega)
  · intro fuel hfuel
    exact sortLoop_orphan root cos o hnodup hroot ho hop1 hop2
      fuel _ _ _ 0 inv0 (by omega)

theorem getSortedData_orphan_spec_witness :
    getSortedData "c1" cosOrphan = .error .IMPORT_CONTENT_SORT_FAILED ∧
    (∀ fuel, cosOrphan.length + 1 ≤ fuel →
      sortLoop cosOrphan fuel [["c1"]] ["c1"] (fun _ => []) 0 =
        .error .IMPORT_CONTENT_SORT_FAILED) :=
  getSortedData_orphan_spec "c1" cosOrphan { _id := "o1", _parentId := "zzz" }
    (by decide) (by decide) (by decide) (by decide) (by decide)

end AdaptFramework

namespace AdaptFramework

/-! ### Migration chain facts -/

theorem parentFix_falsy (idMap : String → Option String) (d : Item)
    (h : jsTruthyStr d._parentId = false) : parentFix idMap d = d := by
  simp [parentFix, h]

theorem componentFix_ne (cname : String → Option String) (d : Item)
    (h : d._type ≠ "component") : componentFix cname d = d := by
  simp [componentFix, h]

theorem ComponentTransform_ne (d : Item) (h : d._type ≠ "component") :
    ComponentTransform d none = .ok d := by
  simp [ComponentTransform, h]

theorem graphicFix_fields (d d3 : Item) (h : graphicFix d = .ok d3) :
    d3._type = d._type ∧ d3._parentId = d._parentId ∧
    d3._component = d._component ∧ d3._vanilla = d._vanilla := by
  unfold graphicFix at h
  by_cases hc : d._component = some "graphic"
  · rw [if_pos hc] at h
    cases hg : d._graphic with
    | none =>
      rw [hg] at h
      exact Except.noConfusion h
    | some g =>
      rw [hg] at h
      by_cases hs : jsTruthyStr g.src
      · simp only [hs, if_true] at h
        have := Except.ok.inj h
        subst this
        exact ⟨rfl, rfl, rfl, rfl⟩
      · simp only [hs, if_false] at h
        have := Except.ok.inj h
        subst this
        exact ⟨rfl, rfl, rfl, rfl⟩
  · rw [if_neg hc] at h
    have := Except.ok.inj h
    subst this
    exact ⟨rfl, rfl, rfl, rfl⟩

theorem graphicFix_ok_of (e : Item)
    (h : e._component ≠ some "graphic" ∨
      ∃ g, e._graphic = some g ∧
        (jsTruthyStr g.src = false ∨ (g.large = g.src ∧ g.small = g.src))) :
    graphicFix e = .ok e := by
  unfold graphicFix
  rcases h with hc | ⟨g, hg, hcase⟩
  · rw [if_neg hc]
  · by_cases hc : e._component = some "graphic"
    · rw [if_pos hc, hg]
      rcases hcase with hs | ⟨hl, hsm⟩
      · simp [hs]
      · by_cases hs : jsTruthyStr g.src
        · simp only [hs, if_true]
          have hgg : ({ g with large := g.src, small := g.src } : Graphic) = g := by
            cases g
            simp_all
          rw [hgg]
          congr 1
          rw [← hg]
        · simp [hs]
    · rw [if_neg hc]

theorem graphicFix_post (d d3 : Item) (h : graphicFix d = .ok d3) :
    d3._component ≠ some "graphic" ∨
    ∃ g, d3._graphic = some g ∧
      (jsTruthyStr g.src = false ∨ (g.large = g.src ∧ g.small = g.src)) := by
  unfold graphicFix at h
  by_cases hc : d._component = some "graphic"
  · rw [if_pos hc] at h
    cases hg : d._graphic with
    | none =>
      rw [hg] at h
      exact Except.noConfusion h
    | some g =>
      rw [hg] at h
      by_cases hs : jsTruthyStr g.src
      · simp only [hs, if_true] at h
        have := Except.ok.inj h
        subst this
        right
        exact ⟨_, rfl, Or.inr ⟨rfl, rfl⟩⟩
      · simp only [hs, if_false] at h
        have := Except.ok.inj h
        subst this
        right
        exact ⟨g, hg, Or.inl (by simpa using hs)⟩
  · rw [if_neg hc] at h
    have := Except.ok.inj h
    subst this
    exact Or.inl hc

theorem VanillaTransform_fields (d : Item) :
    (VanillaTransform d)._type = d._type ∧
    (VanillaTransform d)._parentId = d._parentId ∧
    (VanillaTransform d)._component = d._component ∧
    (VanillaTransform d)._graphic = d._graphic := by
  cases hv : d._vanilla <;> simp [VanillaTransform, hv]

theorem delFalsy_idem (v : Option JsPrim) : delFalsy (delFalsy v) = delFalsy v := by
  cases v with
  | none => rfl
  | some p =>
    by_cases h : jsFalsy p <;> simp [delFalsy, h]

theorem removeFalsyImage_idem (g : BgImage) :
    removeFalsyImage (removeFalsyImage g) = removeFalsyImage g := by
  simp [removeFalsyImage, delFalsy_idem]

theorem removeFalsyStyles_idem (g : BgStyles) :
    removeFalsyStyles (removeFalsyStyles g) = removeFalsyStyles g := by
  simp [removeFalsyStyles, delFalsy_idem]

theorem removeFalsyHeights_idem (g : MinHeights) :
    removeFalsyHeights (removeFalsyHeights g) = removeFalsyHeights g := by
  simp [removeFalsyHeights, delFalsy_idem]

theorem removeFalsyGroups_idem (v : VanillaGroups) :
    removeFalsyGroups (removeFalsyGroups v) = removeFalsyGroups v := by
  cases v with
  | mk bi bs mh =>
    cases bi <;> cases bs <;> cases mh <;>
      simp [removeFalsyGroups, removeFalsyImage_idem, removeFalsyStyles_idem,
        removeFalsyHeights_idem]

theorem VanillaTransform_idem (d : Item) :
    VanillaTransform (VanillaTransform d) = VanillaTransform d := by
  cases hv : d._vanilla with
  | none =>
    have h1 : VanillaTransform d = d := by
      simp [VanillaTransform, hv]
    rw [h1, h1]
  | some v =>
    cases v with
    | mk bi bs mh ph =>
      cases bi <;> cases bs <;> cases mh <;> cases ph <;>
        simp [VanillaTransform, hv, removeFalsyImage_idem, removeFalsyStyles_idem,
          removeFalsyHeights_idem, removeFalsyGroups_idem]

/-- C2 (amended): the chain is idempotent only away from the map-based
rewrites: for an item that is not of component type and carries no truthy
parent id, a successful run of transformData is a fixed point of a second
run (the graphic src fix and the declared migrations are idempotent). -/
theorem transformData_idem (idMap cname : String → Option String) (d d1 : Item)
    (hpar : jsTruthyStr d._parentId = false)
    (htype : d._type ≠ "component")
    (h1 : transformData idMap cname d = .ok d1) :
    transformData idMap cname d1 = .ok d1 := by
  unfold transformData at h1
  rw [parentFix_falsy idMap d hpar, componentFix_ne cname d htype] at h1
  cases hg : graphicFix d with
  | error e =>
    rw [hg] at h1
    exact Except.noConfusion h1
  | ok d3 =>
    rw [hg] at h1
    simp only at h1
    obtain ⟨ht3, hp3, hc3, _⟩ := graphicFix_fields d d3 hg
    rw [ComponentTransform_ne d3 (by rw [ht3]; exact htype)] at h1
    simp only at h1
    have hd1 : d1 = VanillaTransform d3 := (Except.ok.inj h1).symm
    obtain ⟨hft, hfp, hfc, hfg⟩ := VanillaTransform_fields d3
    unfold transformData
    rw [parentFix_falsy idMap d1 (by rw [hd1, hfp, hp3]; exact hpar)]
    rw [componentFix_ne cname d1 (by rw [hd1, hft, ht3]; exact htype)]
    have hgf1 : graphicFix d1 = .ok d1 := by
      apply graphicFix_ok_of
      rcases graphicFix_post d d3 hg with hc | ⟨g, hgg, hcase⟩
      · left
        rw [hd1, hfc]
        exact hc
      · right
        exact ⟨g, by rw [hd1, hfg, hgg], hcase⟩
    rw [hgf1]
    simp only
    rw [ComponentTransform_ne d1 (by rw [hd1, hft, ht3]; exact htype)]
    simp only
    rw [hd1, VanillaTransform_idem]

end AdaptFramework

namespace AdaptFramework

/-- C2 counterexample: the item itemEx migrated once carries the mapped
parent id N1; running the whole chain a second time maps N1 through the id
map again, which clears the parent reference — so the chain changed an
already-migrated item. -/
theorem migration_chain_not_idempotent :
    transformData idMapEx cnameEx itemEx = .ok { itemEx with _parentId := some "N1" } ∧
    transformData idMapEx cnameEx { itemEx with _parentId := some "N1" } =
      .ok { itemEx with _parentId := none } ∧
    ({ itemEx with _parentId := none } : Item) ≠ { itemEx with _parentId := some "N1" } := by
  refine ⟨rfl, rfl, by decide⟩

theorem transformData_idem_witness :
    jsTruthyStr itemIdem._parentId = false ∧
    itemIdem._type ≠ "component" ∧
    transformData idMapEx cnameEx itemIdem = .ok itemIdemOut ∧
    transformData idMapEx cnameEx itemIdemOut = .ok itemIdemOut :=
  ⟨by decide, by decide, rfl,
   transformData_idem idMapEx cnameEx itemIdem itemIdemOut (by decide) (by decide) rfl⟩

end AdaptFramework

namespace AdaptFramework

/-! ### Facts about the lodash merge of applyDefaults -/

theorem lookupField_cons (k0 : String) (v0 : JVal) (fs : List (String × JVal)) (k : String) :
    lookupField ((k0, v0) :: fs) k =
      if k0 = k then some v0 else lookupField fs k := by
  unfold lookupField
  rw [List.find?]
  by_cases h : k0 = k
  · simp [h]
  · simp only [h, if_false]
    have : ((k0, v0).1 == k) = false := by
      simp [h]
    rw [this]

theorem lookupField_append (fs1 fs2 : List (String × JVal)) (k : String) :
    lookupField (fs1 ++ fs2) k =
      match lookupField fs1 k with
      | some v => some v
      | none => lookupField fs2 k := by
  induction fs1 with
  | nil => simp [lookupField]
  | cons kv rest ih =>
    obtain ⟨k0, v0⟩ := kv
    rw [List.cons_append, lookupField_cons, lookupField_cons]
    by_cases h : k0 = k
    · simp [h]
    · simp [h, ih]

theorem lookupField_mergeIntoD (d s : List (String × JVal)) (k : String) :
    lookupField (mergeIntoD d s) k =
      match lookupField d k, lookupField s k with
      | some dv, some sv => some (mergeVal dv sv)
      | some dv, none => some dv
      | none, _ => none := by
  induction d with
  | nil => simp [mergeIntoD, lookupField]
  | cons kv rest ih =>
    obtain ⟨k0, v0⟩ := kv
    rw [mergeIntoD]
    by_cases h : k0 = k
    · subst h
      cases hs : lookupField s k0 with
      | none =>
        simp only [hs]
        rw [lookupField_cons, if_pos rfl, lookupField_cons, if_pos rfl]
      | some sv =>
        simp only [hs]
        rw [lookupField_cons, if_pos rfl, lookupField_cons, if_pos rfl]
    · cases hs : lookupField s k0 with
      | none =>
        simp only [hs]
        rw [lookupField_cons, if_neg h, lookupField_cons, if_neg h, ih]
      | some sv =>
        simp only [hs]
        rw [lookupField_cons, if_neg h, lookupField_cons, if_neg h, ih]

theorem lookupField_filter_none (d s : List (String × JVal)) (k : String)
    (hd : lookupField d k = none) :
    lookupField (s.filter (fun kv => (lookupField d kv.1).isNone)) k =
      lookupField s k := by
  induction s with
  | nil => simp
  | cons kv rest ih =>
    obtain ⟨k0, v0⟩ := kv
    by_cases h : k0 = k
    · subst h
      have : (lookupField d k0).isNone = true := by
        rw [hd]
        rfl
      rw [List.filter_cons, if_pos (by simpa using this)]
      rw [lookupField_cons, if_pos rfl, lookupField_cons, if_pos rfl]
    · rw [List.filter_cons]
      by_cases hkeep : ((lookupField d (k0, v0).1).isNone : Bool) = true
      · rw [if_pos (by simpa using hkeep)]
        rw [lookupField_cons, if_neg h, lookupField_cons, if_neg h]
        exact ih
      · rw [if_neg (by simpa using hkeep)]
        rw [lookupField_cons, if_neg h]
        exact ih

theorem lookupField_merge (d s : List (String × JVal)) (k : String) :
    lookupField (mergeIntoD d s ++ s.filter (fun kv => (lookupField d kv.1).isNone)) k =
      match lookupField d k, lookupField s k with
      | some dv, some sv => some (mergeVal dv sv)
      | some dv, none => some dv
      | none, res => res := by
  rw [lookupField_append, lookupField_mergeIntoD]
  cases hd : lookupField d k with
  | some dv =>
    cases hs : lookupField s k <;> simp
  | none =>
    simp only
    exact lookupField_filter_none d s k hd

theorem pathGet_nil (v : JVal) : pathGet v [] = some v := by
  cases v <;> rfl

theorem mergeElems_get (dl sl : List JVal) (i : Nat) (w : JVal)
    (h : sl[i]? = some w) :
    (mergeElems dl sl)[i]? =
      some (match dl[i]? with | some dv => mergeVal dv w | none => w) := by
  induction dl generalizing sl i with
  | nil =>
    rw [mergeElems]
    simp [h]
  | cons dv dt ih =>
    cases sl with
    | nil => simp at h
    | cons sv st =>
      rw [mergeElems]
      cases i with
      | zero =>
        simp only [List.getElem?_cons_zero] at h
        have hws : w = sv := (Option.some.inj h).symm
        subst hws
        simp
      | succ i =>
        simp only [List.getElem?_cons_succ] at h ⊢
        exact ih st i h

/-- C10 (amended): the defaulting merge preserves every primitive value of
the inserted document: at any path where the document holds a primitive
(non-object, non-array) value, the merged result holds the same value.
Containers may gain extra keys or elements from the defaults underneath. -/
theorem applyDefaults_preserves_prim_paths :
    ∀ (path : List PathStep) (defaults data v : JVal),
    pathGet data path = some v → isPrim v = true →
    pathGet (applyDefaults defaults data) path = some v := by
  intro path
  induction path with
  | nil =>
    intro defaults data v h hp
    rw [pathGet_nil] at h
    have hdv : data = v := Option.some.inj h
    subst hdv
    cases defaults <;> cases data <;>
      simp_all [applyDefaults, mergeVal, pathGet, isPrim]
  | cons step rest ih =>
    intro defaults data v h hp
    cases step with
    | key k =>
      cases data with
      | obj sf =>
        simp only [pathGet] at h
        cases hw : lookupField sf k with
        | none =>
          rw [hw] at h
          exact Option.noConfusion h
        | some w =>
          rw [hw] at h
          simp only at h
          cases defaults with
          | obj df =>
            show pathGet (mergeVal (.obj df) (.obj sf)) _ = some v
            simp only [mergeVal, pathGet]
            rw [lookupField_merge df sf k, hw]
            cases hd : lookupField df k with
            | some dv =>
              simp only
              exact ih dv w v h hp
            | none =>
              simp only
              exact h
          | null => simpa [applyDefaults, mergeVal, pathGet, hw] using h
          | boolean b => simpa [applyDefaults, mergeVal, pathGet, hw] using h
          | num n => simpa [applyDefaults, mergeVal, pathGet, hw] using h
          | str s => simpa [applyDefaults, mergeVal, pathGet, hw] using h
          | arr l => simpa [applyDefaults, mergeVal, pathGet, hw] using h
      | null => simp [pathGet] at h
      | boolean b => simp [pathGet] at h
      | num n => simp [pathGet] at h
      | str s => simp [pathGet] at h
      | arr l => simp [pathGet] at h
    | idx i =>
      cases data with
      | arr sl =>
        simp only [pathGet] at h
        cases hw : sl[i]? with
        | none =>
          rw [hw] at h
          exact Option.noConfusion h
        | some w =>
          rw [hw] at h
          simp only at h
          cases defaults with
          | arr dl =>
            show pathGet (mergeVal (.arr dl) (.arr sl)) _ = some v
            simp only [mergeVal, pathGet]
            rw [mergeElems_get dl sl i w hw]
            cases hd : dl[i]? with
            | some dv =>
              simp only
              exact ih dv w v h hp
            | none =>
              simp only
              exact h
          | null => simpa [applyDefaults, mergeVal, pathGet, hw] using h
          | boolean b => simpa [applyDefaults, mergeVal, pathGet, hw] using h
          | num n => simpa [applyDefaults, mergeVal, pathGet, hw] using h
          | str s => simpa [applyDefaults, mergeVal, pathGet, hw] using h
          | obj l => simpa [applyDefaults, mergeVal, pathGet, hw] using h
      | null => simp [pathGet] at h
      | boolean b => simp [pathGet] at h
      | num n => simp [pathGet] at h
      | str s => simp [pathGet] at h
      | obj l => simp [pathGet] at h

end AdaptFramework

namespace AdaptFramework

/-- C10 counterexample: the inserted document holds the one-element array
at items, but the merged result holds a two-element array there — the
index-wise lodash array merge appended the second default element, so the
field value coming from the imported package was changed by the pass. -/
theorem applyDefaults_changes_array_field :
    applyDefaults defaultsEx dataEx =
      .obj [("items", .arr [.str "a", .str "y"])] ∧
    pathGet dataEx [PathStep.key "items"] = some (.arr [.str "a"]) ∧
    pathGet (applyDefaults defaultsEx dataEx) [PathStep.key "items"] =
      some (.arr [.str "a", .str "y"]) ∧
    (JVal.arr [.str "a", .str "y"]) ≠ .arr [.str "a"] := by
  refine ⟨rfl, rfl, rfl, ?_⟩
  intro h
  injection h with h1
  simp at h1

theorem applyDefaults_preserves_prim_paths_witness :
    pathGet dataEx [PathStep.key "items", PathStep.idx 0] = some (.str "a") ∧
    isPrim (.str "a") = true ∧
    pathGet (applyDefaults defaultsEx dataEx) [PathStep.key "items", PathStep.idx 0] =
      some (.str "a") :=
  ⟨rfl, rfl, applyDefaults_preserves_prim_paths [PathStep.key "items", PathStep.idx 0]
    defaultsEx dataEx (.str "a") rfl rfl⟩

end AdaptFramework

namespace AdaptFramework

/-! ### Facts about the asset-reference rewrite -/

theorem lookupField_set_ne (k : String) (v : JVal) (k2 : String) (h : k ≠ k2) :
    ∀ fs : List (String × JVal),
    lookupField (setFieldVal fs k v) k2 = lookupField fs k2 := by
  intro fs
  induction fs with
  | nil => rfl
  | cons kv rest ih =>
    obtain ⟨k0, v0⟩ := kv
    rw [setFieldVal]
    by_cases h0 : k0 = k
    · subst h0
      rw [if_pos rfl, lookupField_cons, lookupField_cons, if_neg h, if_neg h]
    · rw [if_neg h0, lookupField_cons, lookupField_cons]
      by_cases h2 : k0 = k2
      · simp [h2]
      · simp [h2, ih]

theorem lookupField_set_self (k : String) (v : JVal) :
    ∀ fs : List (String × JVal), (lookupField fs k).isSome →
    lookupField (setFieldVal fs k v) k = some v := by
  intro fs
  induction fs with
  | nil => intro h; simp [lookupField] at h
  | cons kv rest ih =>
    obtain ⟨k0, v0⟩ := kv
    intro h
    rw [setFieldVal]
    by_cases h0 : k0 = k
    · subst h0
      rw [if_pos rfl, lookupField_cons, if_pos rfl]
    · rw [if_neg h0, lookupField_cons, if_neg h0]
      apply ih
      rw [lookupField_cons, if_neg h0] at h
      exact h

theorem lookupField_del_self (k : String) :
    ∀ fs : List (String × JVal), lookupField (delField fs k) k = none := by
  intro fs
  induction fs with
  | nil => rfl
  | cons kv rest ih =>
    obtain ⟨k0, v0⟩ := kv
    rw [delField, List.filter_cons]
    by_cases h0 : k0 = k
    · subst h0
      simp only [beq_self_eq_true, Bool.not_true, if_false]
      exact ih
    · have : (!((k0, v0).1 == k)) = true := by simp [h0]
      rw [if_pos this, lookupField_cons, if_neg h0]
      exact ih

theorem lookupField_del_ne (k k2 : String) (h : k ≠ k2) :
    ∀ fs : List (String × JVal),
    lookupField (delField fs k) k2 = lookupField fs k2 := by
  intro fs
  induction fs with
  | nil => rfl
  | cons kv rest ih =>
    obtain ⟨k0, v0⟩ := kv
    rw [delField, List.filter_cons]
    by_cases h0 : k0 = k
    · subst h0
      simp only [beq_self_eq_true, Bool.not_true, if_false]
      rw [lookupField_cons, if_neg h]
      exact ih
    · have hkeep : (!((k0, v0).1 == k)) = true := by simp [h0]
      rw [if_pos hkeep, lookupField_cons, lookupField_cons]
      by_cases h2 : k0 = k2
      · simp [h2]
      · rw [if_neg h2, if_neg h2]
        exact ih

theorem amLookup_any (am : List (String × String)) (s id : String)
    (h : amLookup am s = some id) : am.any (fun kv => kv.2 == id) = true := by
  unfold amLookup at h
  cases hf : am.find? (fun kv => kv.1 == s) with
  | none => rw [hf] at h; exact Option.noConfusion h
  | some kv =>
    rw [hf] at h
    have hid : kv.2 = id := Option.some.inj h
    have hmem := List.mem_of_find?_eq_some hf
    rw [List.any_eq_true]
    exact ⟨kv, hmem, by rw [hid]; simp⟩

end AdaptFramework

namespace AdaptFramework

/-- The walk never touches a property whose key is not declared by the
schema. -/
theorem extract_untouched (am : List (String × String)) :
    ∀ (fuel : Nat) (props : SchemaProps) (data : JVal) (k : String),
    k ∉ propsKeys props →
    lookupJ (extractProps fuel am props data).1 k = lookupJ data k := by
  intro fuel
  induction fuel with
  | zero =>
    intro props data k _
    rfl
  | succ fuel ih =>
    intro props data k hk
    cases props with
    | nil => rfl
    | cons key node rest =>
      simp only [propsKeys, List.mem_cons, not_or] at hk
      obtain ⟨hk1, hk2⟩ := hk
      have hkey : key ≠ k := fun he => hk1 he.symm
      cases data with
      | obj fs =>
        cases hcur : lookupField fs key with
        | none =>
          have hgoal : extractProps (fuel + 1) am (.cons key node rest) (.obj fs) =
              extractProps fuel am rest (.obj fs) := by
            simp [extractProps, hcur]
          rw [hgoal]
          exact ih rest (.obj fs) k hk2
        | some cur =>
          cases node with
          | group p2 =>
            cases hr : extractProps fuel am p2 cur with
            | mk r1 r2 =>
              cases r2 with
              | some e =>
                have hgoal : extractProps (fuel + 1) am (.cons key (.group p2) rest) (.obj fs) =
                    (JVal.obj (setFieldVal fs key r1), some e) := by
                  simp [extractProps, hcur, hr]
                rw [hgoal]
                exact lookupField_set_ne key r1 k hkey fs
              | none =>
                have hgoal : extractProps (fuel + 1) am (.cons key (.group p2) rest) (.obj fs) =
                    extractProps fuel am rest (.obj (setFieldVal fs key r1)) := by
                  simp [extractProps, hcur, hr]
                rw [hgoal, ih rest _ k hk2]
                exact lookupField_set_ne key r1 k hkey fs
          | arrayOf p2 =>
            cases cur with
            | arr elems =>
              cases hr : extractElems fuel am p2 elems with
              | mk r1 r2 =>
                cases r2 with
                | some e =>
                  have hgoal : extractProps (fuel + 1) am (.cons key (.arrayOf p2) rest) (.obj fs) =
                      (JVal.obj (setFieldVal fs key (.arr r1)), some e) := by
                    simp [extractProps, hcur, hr]
                  rw [hgoal]
                  exact lookupField_set_ne key (.arr r1) k hkey fs
                | none =>
                  have hgoal : extractProps (fuel + 1) am (.cons key (.arrayOf p2) rest) (.obj fs) =
                      extractProps fuel am rest (.obj (setFieldVal fs key (.arr r1))) := by
                    simp [extractProps, hcur, hr]
                  rw [hgoal, ih rest _ k hk2]
                  exact lookupField_set_ne key (.arr r1) k hkey fs
            | null =>
              have hgoal : extractProps (fuel + 1) am (.cons key (.arrayOf p2) rest) (.obj fs) =
                  (JVal.obj fs, some .typeError) := by
                simp [extractProps, hcur]
              rw [hgoal]
            | boolean b =>
              have hgoal : extractProps (fuel + 1) am (.cons key (.arrayOf p2) rest) (.obj fs) =
                  (JVal.obj fs, some .typeError) := by
                simp [extractProps, hcur]
              rw [hgoal]
            | num n =>
              have hgoal : extractProps (fuel + 1) am (.cons key (.arrayOf p2) rest) (.obj fs) =
                  (JVal.obj fs, some .typeError) := by
                simp [extractProps, hcur]
              rw [hgoal]
            | str s =>
              have hgoal : extractProps (fuel + 1) am (.cons key (.arrayOf p2) rest) (.obj fs) =
                  (JVal.obj fs, some .typeError) := by
                simp [extractProps, hcur]
              rw [hgoal]
            | obj fs2 =>
              have hgoal : extractProps (fuel + 1) am (.cons key (.arrayOf p2) rest) (.obj fs) =
                  (JVal.obj fs, some .typeError) := by
                simp [extractProps, hcur]
              rw [hgoal]
          | asset =>
            cases cur with
            | str s =>
              cases ham : amLookup am s with
              | some id =>
                have hgoal : extractProps (fuel + 1) am (.cons key .asset rest) (.obj fs) =
                    extractProps fuel am rest (.obj (setFieldVal fs key (.str id))) := by
                  simp [extractProps, hcur, ham]
                rw [hgoal, ih rest _ k hk2]
                exact lookupField_set_ne key (.str id) k hkey fs
              | none =>
                have hgoal : extractProps (fuel + 1) am (.cons key .asset rest) (.obj fs) =
                    extractProps fuel am rest (.obj (delField fs key)) := by
                  simp [extractProps, hcur, ham]
                rw [hgoal, ih rest _ k hk2]
                exact lookupField_del_ne key k hkey fs
            | null =>
              have hgoal : extractProps (fuel + 1) am (.cons key .asset rest) (.obj fs) =
                  extractProps fuel am rest (.obj (delField fs key)) := by
                simp [extractProps, hcur]
              rw [hgoal, ih rest _ k hk2]
              exact lookupField_del_ne key k hkey fs
            | boolean b =>
              have hgoal : extractProps (fuel + 1) am (.cons key .asset rest) (.obj fs) =
                  extractProps fuel am rest (.obj (delField fs key)) := by
                simp [extractProps, hcur]
              rw [hgoal, ih rest _ k hk2]
              exact lookupField_del_ne key k hkey fs
            | num n =>
              have hgoal : extractProps (fuel + 1) am (.cons key .asset rest) (.obj fs) =
                  extractProps fuel am rest (.obj (delField fs key)) := by
                simp [extractProps, hcur]
              rw [hgoal, ih rest _ k hk2]
              exact lookupField_del_ne key k hkey fs
            | arr l =>
              have hgoal : extractProps (fuel + 1) am (.cons key .asset rest) (.obj fs) =
                  extractProps fuel am rest (.obj (delField fs key)) := by
                simp [extractProps, hcur]
              rw [hgoal, ih rest _ k hk2]
              exact lookupField_del_ne key k hkey fs
            | obj fs2 =>
              have hgoal : extractProps (fuel + 1) am (.cons key .asset rest) (.obj fs) =
                  extractProps fuel am rest (.obj (delField fs key)) := by
                simp [extractProps, hcur]
              rw [hgoal, ih rest _ k hk2]
              exact lookupField_del_ne key k hkey fs
          | plain =>
            have hgoal : extractProps (fuel + 1) am (.cons key .plain rest) (.obj fs) =
                extractProps fuel am rest (.obj fs) := by
              simp [extractProps, hcur]
            rw [hgoal]
            exact ih rest (.obj fs) k hk2
      | null =>
        have hgoal : extractProps (fuel + 1) am (.cons key node rest) .null =
            extractProps fuel am rest .null := by
          simp [extractProps]
        rw [hgoal]
        exact ih rest _ k hk2
      | boolean b =>
        have hgoal : extractProps (fuel + 1) am (.cons key node rest) (.boolean b) =
            extractProps fuel am rest (.boolean b) := by
          simp [extractProps]
        rw [hgoal]
        exact ih rest _ k hk2
      | num n =>
        have hgoal : extractProps (fuel + 1) am (.cons key node rest) (.num n) =
            extractProps fuel am rest (.num n) := by
          simp [extractProps]
        rw [hgoal]
        exact ih rest _ k hk2
      | str s =>
        have hgoal : extractProps (fuel + 1) am (.cons key node rest) (.str s) =
            extractProps fuel am rest (.str s) := by
          simp [extractProps]
        rw [hgoal]
        exact ih rest _ k hk2
      | arr l =>
        have hgoal : extractProps (fuel + 1) am (.cons key node rest) (.arr l) =
            extractProps fuel am rest (.arr l) := by
          simp [extractProps]
        rw [hgoal]
        exact ih rest _ k hk2

end AdaptFramework

namespace AdaptFramework

theorem cleanProps_cons (fuel : Nat) (am : List (String × String))
    (key : String) (node : SchemaNode) (rest : SchemaProps) (data : JVal) :
    cleanProps (fuel + 1) am (.cons key node rest) data =
      ((match lookupJ data key with
        | none => true
        | some cur => cleanNodeVal fuel am node cur) &&
       cleanProps fuel am rest data) := by
  cases data <;> cases node <;> simp [cleanProps, cleanNodeVal, lookupJ]

theorem extract_clean_joint (am : List (String × String)) :
    ∀ fuel : Nat,
    (∀ props data res, wfProps props = true →
      extractProps fuel am props data = (res, none) →
      cleanProps fuel am props res = true) ∧
    (∀ p2 elems res, wfProps p2 = true →
      extractElems fuel am p2 elems = (res, none) →
      cleanElems fuel am p2 res = true) := by
  intro fuel
  induction fuel with
  | zero =>
    constructor
    · intro props data res _ h
      simp [extractProps] at h
    · intro p2 elems res _ h
      simp [extractElems] at h
  | succ fuel ih =>
    obtain ⟨ihP, ihE⟩ := ih
    constructor
    · intro props data res hwf h
      cases props with
      | nil =>
        have hres : data = res := by
          have := congrArg Prod.fst h
          simpa [extractProps] using this
        simp [cleanProps]
      | cons key node rest =>
        have hwf2 : ((!(propsKeys rest).contains key) = true ∧ wfNode node = true) ∧
            wfProps rest = true := by
          simpa [wfProps, Bool.and_eq_true] using hwf
        obtain ⟨⟨hnc, hwfnode⟩, hwfrest⟩ := hwf2
        have hkmem : key ∉ propsKeys rest := by simpa using hnc
        have huntouched : ∀ src : JVal,
            extractProps fuel am rest src = (res, none) →
            lookupJ res key = lookupJ src key := by
          intro src hsrc
          have hu := extract_untouched am fuel rest src key hkmem
          rw [hsrc] at hu
          exact hu
        cases data with
        | obj fs =>
          cases hcur : lookupField fs key with
          | none =>
            have hstep : extractProps (fuel + 1) am (.cons key node rest) (.obj fs) =
                extractProps fuel am rest (.obj fs) := by
              simp [extractProps, hcur]
            rw [hstep] at h
            rw [cleanProps_cons, huntouched _ h]
            simp [lookupJ, hcur, ihP rest (.obj fs) res hwfrest h]
          | some cur =>
            cases node with
            | group p2 =>
              have hwfp2 : wfProps p2 = true := by simpa [wfNode] using hwfnode
              cases hr : extractProps fuel am p2 cur with
              | mk r1 r2 =>
                cases r2 with
                | some e =>
                  simp [extractProps, hcur, hr] at h
                | none =>
                  have hstep : extractProps (fuel + 1) am (.cons key (.group p2) rest) (.obj fs) =
                      extractProps fuel am rest (.obj (setFieldVal fs key r1)) := by
                    simp [extractProps, hcur, hr]
                  rw [hstep] at h
                  have hsub := ihP p2 cur r1 hwfp2 hr
                  have hrest := ihP rest _ res hwfrest h
                  rw [cleanProps_cons, huntouched _ h]
                  have hset : lookupJ (JVal.obj (setFieldVal fs key r1)) key = some r1 := by
                    show lookupField (setFieldVal fs key r1) key = some r1
                    exact lookupField_set_self key r1 fs (by rw [hcur]; rfl)
                  rw [hset]
                  simp [cleanNodeVal, hsub, hrest]
            | arrayOf p2 =>
              have hwfp2 : wfProps p2 = true := by simpa [wfNode] using hwfnode
              cases cur with
              | arr elems =>
                cases hr : extractElems fuel am p2 elems with
                | mk r1 r2 =>
                  cases r2 with
                  | some e =>
                    simp [extractProps, hcur, hr] at h
                  | none =>
                    have hstep : extractProps (fuel + 1) am
                        (.cons key (.arrayOf p2) rest) (.obj fs) =
                        extractProps fuel am rest
                          (.obj (setFieldVal fs key (.arr r1))) := by
                      simp [extractProps, hcur, hr]
                    rw [hstep] at h
                    have hsub := ihE p2 elems r1 hwfp2 hr
                    have hrest := ihP rest _ res hwfrest h
                    rw [cleanProps_cons, huntouched _ h]
                    have hset : lookupJ (JVal.obj (setFieldVal fs key (.arr r1))) key =
                        some (.arr r1) := by
                      show lookupField (setFieldVal fs key (.arr r1)) key = some (.arr r1)
                      exact lookupField_set_self key (.arr r1) fs (by rw [hcur]; rfl)
                    rw [hset]
                    simp [cleanNodeVal, hsub, hrest]
              | null => simp [extractProps, hcur] at h
              | boolean b => simp [extractProps, hcur] at h
              | num n => simp [extractProps, hcur] at h
              | str s => simp [extractProps, hcur] at h
              | obj fs2 => simp [extractProps, hcur] at h
            | asset =>
              cases cur with
              | str s =>
                cases ham : amLookup am s with
                | some id =>
                  have hstep : extractProps (fuel + 1) am (.cons key .asset rest) (.obj fs) =
                      extractProps fuel am rest (.obj (setFieldVal fs key (.str id))) := by
                    simp [extractProps, hcur, ham]
                  rw [hstep] at h
                  have hrest := ihP rest _ res hwfrest h
                  rw [cleanProps_cons, huntouched _ h]
                  have hset : lookupJ (JVal.obj (setFieldVal fs key (.str id))) key =
                      some (.str id) := by
                    show lookupField (setFieldVal fs key (.str id)) key = some (.str id)
                    exact lookupField_set_self key (.str id) fs (by rw [hcur]; rfl)
                  rw [hset]
                  simp [cleanNodeVal, amLookup_any am s id ham, hrest]
                | none =>
                  have hstep : extractProps (fuel + 1) am (.cons key .asset rest) (.obj fs) =
                      extractProps fuel am rest (.obj (delField fs key)) := by
                    simp [extractProps, hcur, ham]
                  rw [hstep] at h
                  have hrest := ihP rest _ res hwfrest h
                  rw [cleanProps_cons, huntouched _ h]
                  have hdel : lookupJ (JVal.obj (delField fs key)) key = none := by
                    show lookupField (delField fs key) key = none
                    exact lookupField_del_self key fs
                  rw [hdel]
                  simp [hrest]
              | null =>
                have hstep : extractProps (fuel + 1) am (.cons key .asset rest) (.obj fs) =
                    extractProps fuel am rest (.obj (delField fs key)) := by
                  simp [extractProps, hcur]
                rw [hstep] at h
                have hrest := ihP rest _ res hwfrest h
                rw [cleanProps_cons, huntouched _ h]
                rw [show lookupJ (JVal.obj (delField fs key)) key = none from
                  lookupField_del_self key fs]
                simp [hrest]
              | boolean b =>
                have hstep : extractProps (fuel + 1) am (.cons key .asset rest) (.obj fs) =
                    extractProps fuel am rest (.obj (delField fs key)) := by
                  simp [extractProps, hcur]
                rw [hstep] at h
                have hrest := ihP rest _ res hwfrest h
                rw [cleanProps_cons, huntouched _ h]
                rw [show lookupJ (JVal.obj (delField fs key)) key = none from
                  lookupField_del_self key fs]
                simp [hrest]
              | num n =>
                have hstep : extractProps (fuel + 1) am (.cons key .asset rest) (.obj fs) =
                    extractProps fuel am rest (.obj (delField fs key)) := by
                  simp [extractProps, hcur]
                rw [hstep] at h
                have hrest := ihP rest _ res hwfrest h
                rw [cleanProps_cons, huntouched _ h]
                rw [show lookupJ (JVal.obj (delField fs key)) key = none from
                  lookupField_del_self key fs]
                simp [hrest]
              | arr l =>
                have hstep : extractProps (fuel + 1) am (.cons key .asset rest) (.obj fs) =
                    extractProps fuel am rest (.obj (delField fs key)) := by
                  simp [extractProps, hcur]
                rw [hstep] at h
                have hrest := ihP rest _ res hwfrest h
                rw [cleanProps_cons, huntouched _ h]
                rw [show lookupJ (JVal.obj (delField fs key)) key = none from
                  lookupField_del_self key fs]
                simp [hrest]
              | obj fs2 =>
                have hstep : extractProps (fuel + 1) am (.cons key .asset rest) (.obj fs) =
                    extractProps fuel am rest (.obj (delField fs key)) := by
                  simp [extractProps, hcur]
                rw [hstep] at h
                have hrest := ihP rest _ res hwfrest h
                rw [cleanProps_cons, huntouched _ h]
                rw [show lookupJ (JVal.obj (delField fs key)) key = none from
                  lookupField_del_self key fs]
                simp [hrest]
            | plain =>
              have hstep : extractProps (fuel + 1) am (.cons key .plain rest) (.obj fs) =
                  extractProps fuel am rest (.obj fs) := by
                simp [extractProps, hcur]
              rw [hstep] at h
              have hrest := ihP rest _ res hwfrest h
              rw [cleanProps_cons]
              cases hres : lookupJ res key <;> simp [cleanNodeVal, hrest]
        | null =>
          have hstep : extractProps (fuel + 1) am (.cons key node rest) .null =
              extractProps fuel am rest .null := by
            simp [extractProps]
          rw [hstep] at h
          rw [cleanProps_cons, huntouched _ h]
          simp [lookupJ, ihP rest _ res hwfrest h]
        | boolean b =>
          have hstep : extractProps (fuel + 1) am (.cons key node rest) (.boolean b) =
              extractProps fuel am rest (.boolean b) := by
            simp [extractProps]
          rw [hstep] at h
          rw [cleanProps_cons, huntouched _ h]
          simp [lookupJ, ihP rest _ res hwfrest h]
        | num n =>
          have hstep : extractProps (fuel + 1) am (.cons key node rest) (.num n) =
              extractProps fuel am rest (.num n) := by
            simp [extractProps]
          rw [hstep] at h
          rw [cleanProps_cons, huntouched _ h]
          simp [lookupJ, ihP rest _ res hwfrest h]
        | str s =>
          have hstep : extractProps (fuel + 1) am (.cons key node rest) (.str s) =
              extractProps fuel am rest (.str s) := by
            simp [extractProps]
          rw [hstep] at h
          rw [cleanProps_cons, huntouched _ h]
          simp [lookupJ, ihP rest _ res hwfrest h]
        | arr l =>
          have hstep : extractProps (fuel + 1) am (.cons key node rest) (.arr l) =
              extractProps fuel am rest (.arr l) := by
            simp [extractProps]
          rw [hstep] at h
          rw [cleanProps_cons, huntouched _ h]
          simp [lookupJ, ihP rest _ res hwfrest h]
    · intro p2 elems res hwfp2 h
      cases elems with
      | nil =>
        have hres : res = [] := by
          have := congrArg Prod.fst h
          simpa [extractElems] using this.symm
        subst hres
        simp [cleanElems]
      | cons e es =>
        cases hr : extractProps fuel am p2 e with
        | mk r1 r2 =>
          cases r2 with
          | some err =>
            simp [extractElems, hr] at h
          | none =>
            cases hrs : extractElems fuel am p2 es with
            | mk rs1 rs2 =>
              have hres : res = r1 :: rs1 ∧ rs2 = none := by
                have h2 := h
                simp [extractElems, hr, hrs] at h2
                exact ⟨h2.1.symm, h2.2⟩
              obtain ⟨hres1, hres2⟩ := hres
              subst hres1
              subst hres2
              have hsub := ihP p2 e r1 hwfp2 hr
              have hsubs := ihE p2 es rs1 hwfp2 hrs
              simp [cleanElems, hsub, hsubs]

end AdaptFramework

namespace AdaptFramework

/-- C5 counterexample: the schema declares badArr (array of objects with a
nested asset) before logo (asset).  Because badArr holds a string, the
walk throws before reaching logo; importContentObject catches and only
logs the error, so the item proceeds to insertion with logo still holding
the original package reference images/logo.png even though the asset map
maps it to the new asset id A1. -/
theorem extractAssets_abort_keeps_original_reference :
    extractProps 10 amEx schemaStale dataStale = (dataStale, some .typeError) ∧
    importItemAssetData 10 amEx schemaStale dataStale = dataStale ∧
    pathGet dataStale [.key "logo"] = some (.str "images/logo.png") ∧
    amLookup amEx "images/logo.png" = some "A1" ∧
    cleanProps 10 amEx schemaStale dataStale = false ∧
    wfProps schemaStale = true := by
  refine ⟨rfl, rfl, rfl, rfl, rfl, rfl⟩

/-- C5 (amended): when the recursive asset walk of an item completes
without throwing, every schema-flagged asset field of the resulting item
(at every nesting level the walk reaches) holds the asset-map image of
some original reference or is absent; when the walk throws, the error is
only logged and the partially rewritten item is inserted as is. -/
theorem extractAssets_success_clean (am : List (String × String))
    (fuel : Nat) (props : SchemaProps) (data res : JVal)
    (hwf : wfProps props = true)
    (h : extractProps fuel am props data = (res, none)) :
    cleanProps fuel am props res = true :=
  (extract_clean_joint am fuel).1 props data res hwf h

theorem extractAssets_success_clean_witness :
    wfProps schemaClean = true ∧
    extractProps 10 amEx schemaClean dataClean = (dataCleanOut, none) ∧
    cleanProps 10 amEx schemaClean dataCleanOut = true :=
  ⟨rfl, rfl,
   extractAssets_success_clean amEx 10 schemaClean dataClean dataCleanOut rfl rfl⟩

end AdaptFramework

namespace AdaptFramework

theorem cleanUpStage_removes_unzip (error : Bool) (pkg : PackageData)
    (st : ImportStore) (run : ImportRunState) :
    pkg.unzipPath ∉ (cleanUpStage error pkg st run).dirs := by
  have hfilter : ∀ l : List String,
      pkg.unzipPath ∉ l.filter (fun dname => !(dname == pkg.unzipPath)) := by
    intro l hmem
    have h2 := List.of_mem_filter hmem
    simp at h2
  unfold cleanUpStage
  cases error with
  | false => simpa using hfilter st.dirs
  | true =>
    cases lookupStr run.idMap pkg.courseOldId with
    | none => simpa using hfilter st.dirs
    | some cid => simpa using hfilter st.dirs

/-- C9: whatever the settings, the package, the external outcomes and the
initial store, an import run removes the unpacked working directory
before returning — cleanup runs on success and on failure alike. -/
theorem importRun_removes_unzip (settings : ImportSettings) (w : ImportWorld)
    (pkg : PackageData) (st0 : ImportStore) :
    pkg.unzipPath ∉ (importRun settings w pkg st0).1.dirs := by
  unfold importRun
  split
  · exact cleanUpStage_removes_unzip _ pkg _ _
  · simp only
    repeat' split
    all_goals exact cleanUpStage_removes_unzip _ pkg _ _

/-- C3 evidence: with importPlugins disabled and the referenced plugin
absent from the registry, the import does not fail with MISSING_PLUGINS —
importCoursePlugins (which holds the check) is never invoked, the run
succeeds, and the course and config content is inserted. -/
theorem import_plugins_disabled_skips_missing_check :
    (importRun settingsNoPlugins worldAllOk pkgMissingPlugin storeInit).2 = none ∧
    (importRun settingsNoPlugins worldAllOk pkgMissingPlugin storeInit).2 ≠
      some .MISSING_PLUGINS ∧
    (importRun settingsNoPlugins worldAllOk pkgMissingPlugin storeInit).1.content ≠ [] ∧
    lookupVer storeInit.plugins "adapt-quiz" = none ∧
    settingsNoPlugins.importPlugins = false := by
  refine ⟨rfl, by decide, by decide, rfl, rfl⟩

/-- C4 evidence: an import that fails during plugin install, after asset
records were created but before any content insert, rethrows the original
IMPORT_PLUGINS_FAILED error and removes the unpacked directory, but the
created asset records survive: cleanUp parses the new course id out of
idMap, which holds nothing yet, so the parse throws, the catch swallows
it, and the asset/plugin/content deletions are skipped. -/
theorem import_early_failure_keeps_assets :
    (importRun settingsFull worldInstallFail pkgWithAsset storeInit).2 =
      some .IMPORT_PLUGINS_FAILED ∧
    (importRun settingsFull worldInstallFail pkgWithAsset storeInit).1.assets =
      ["asset:images/a.png"] ∧
    pkgWithAsset.unzipPath ∉
      (importRun settingsFull worldInstallFail pkgWithAsset storeInit).1.dirs := by
  refine ⟨rfl, rfl, by decide⟩

theorem filter_not_filter {α : Type} (p : α → Bool) (l : List α) :
    (l.filter (fun a => !(p a))).filter p = [] := by
  induction l with
  | nil => rfl
  | cons a t ih =>
    cases hp : p a <;> simp [List.filter_cons, hp, ih]

/-- C8: after two successive builds with the same action and creator, the
adaptbuilds records matching that action and creator are exactly the
second build's record, the first build's output location is gone, and the
second build's output is present. -/
theorem build_evicts_previous (st0 : BuildDb) (j1 j2 : BuildJob)
    (hact : j1.action = j2.action) (huser : j1.userId = j2.userId)
    (hloc : j1.location ≠ j2.location) :
    ((build (build st0 j1).1 j2).1.records.filter
      (fun b => b.action == j2.action && b.createdBy == j2.userId)) =
        [(build (build st0 j1).1 j2).2] ∧
    (build st0 j1).2.location ∉ (build (build st0 j1).1 j2).1.files ∧
    (build (build st0 j1).1 j2).2.location ∈ (build (build st0 j1).1 j2).1.files := by
  simp only [build, removeOldBuilds, recordBuildAttempt]
  rw [hact, huser]
  refine ⟨?_, ?_, ?_⟩
  · rw [List.filter_append, filter_not_filter]
    simp
  · intro hmem
    rw [List.mem_append] at hmem
    rcases hmem with hmem | hmem
    · have hpred := List.of_mem_filter hmem
      rw [Bool.not_eq_true', List.any_eq_false] at hpred
      exact hpred
        ({ action := j2.action, courseId := j1.courseId, location := j1.location,
           expiresAt := j1.expiresAt, createdBy := j2.userId } : BuildRecord)
        (by rw [List.mem_filter]
            exact ⟨List.mem_append_right _ (List.mem_singleton_self _), by simp⟩)
        (by simp)
    · simp at hmem
      exact hloc hmem
  · exact List.mem_append_right _ (List.mem_singleton_self _)

theorem build_evicts_previous_witness :
    ((build (build buildDb0 jobPreview1).1 jobPreview2).1.records.filter
      (fun b => b.action == jobPreview2.action && b.createdBy == jobPreview2.userId)) =
        [(build (build buildDb0 jobPreview1).1 jobPreview2).2] ∧
    (build buildDb0 jobPreview1).2.location ∉
      (build (build buildDb0 jobPreview1).1 jobPreview2).1.files ∧
    (build (build buildDb0 jobPreview1).1 jobPreview2).2.location ∈
      (build (build buildDb0 jobPreview1).1 jobPreview2).1.files :=
  build_evicts_previous buildDb0 jobPreview1 jobPreview2 rfl rfl (by decide)

end AdaptFramework
